import Mathlib

/-!
Verification of the core comparison logic of the csv-compare repository
(`src/comparison.py`, class `DataComparator`).

Rows are Python `Dict[str, str]` values: ordered mappings from column name to
text value with unique keys.  The comparator reads rows only through key
membership (`col in row`), `row.get(col, "")`, `row[col]` after a membership
check, and `row.keys()`, so a row is embedded as an association list of
column/value pairs.  Python dictionaries used as lookups are embedded as
association lists as well (insertion appends, `pop` removes the key); the
comparator consumes lookup keys only as an unordered set, which it sorts
explicitly.  Python `set` values are embedded as `Finset String`.  Exceptions
(`ValueError`) are embedded as `Except CompareError`, with one constructor per
`raise` site.
-/

/-- A CSV row: Python `Dict[str, str]` as an association list. -/
abbrev Row := List (String × String)

/-- Python `col in row`: membership of a column name among the row's keys. -/
def hasCol (row : Row) (col : String) : Bool :=
  row.any (fun p => p.1 == col)

/-- Python `row.get(col, "")`: the value stored at `col`, or empty text. -/
def getCol (row : Row) (col : String) : String :=
  match row.find? (fun p => p.1 == col) with
  | some p => p.2
  | none => ""

/-- Python `row.keys()` collected into a set. -/
def rowCols (row : Row) : Finset String :=
  (row.map Prod.fst).toFinset

/-! Python compares strings by Unicode code points.  Lean's `String` order is
the same order, but its `Decidable` instances are implemented over string
iterators that the kernel cannot evaluate, so the embedding carries its own
structurally recursive code-point comparison. -/

/-- Code-point lexicographic comparison of character lists (Python string
`<=`). -/
def charListLe : List Char → List Char → Bool
  | [], _ => true
  | _ :: _, [] => false
  | a :: as, b :: bs =>
    if a.toNat < b.toNat then true
    else if b.toNat < a.toNat then false
    else charListLe as bs

/-- Python string `<=` (code-point lexicographic). -/
def strLe (a b : String) : Bool := charListLe a.data b.data

/-- Python string `<` (code-point lexicographic, strict). -/
def strLt (a b : String) : Bool := strLe a b && (a != b)

theorem charListLe_cons_iff {a b : Char} {as bs : List Char} :
    charListLe (a :: as) (b :: bs) = true ↔
      a.toNat < b.toNat ∨ (a.toNat = b.toNat ∧ charListLe as bs = true) := by
  show (if a.toNat < b.toNat then true
    else if b.toNat < a.toNat then false else charListLe as bs) = true ↔ _
  by_cases h1 : a.toNat < b.toNat
  · rw [if_pos h1]
    simp [h1]
  · rw [if_neg h1]
    by_cases h2 : b.toNat < a.toNat
    · rw [if_pos h2]
      constructor
      · intro h
        exact absurd h (by simp)
      · intro h
        rcases h with h | ⟨h, _⟩
        · exact absurd h h1
        · omega
    · rw [if_neg h2]
      have heq : a.toNat = b.toNat := by omega
      simp [heq, h1]

theorem charListLe_total : ∀ a b : List Char, charListLe a b = true ∨ charListLe b a = true
  | [], _ => Or.inl rfl
  | _ :: _, [] => Or.inr rfl
  | a :: as, b :: bs => by
    rcases Nat.lt_trichotomy a.toNat b.toNat with h | h | h
    · left
      rw [charListLe_cons_iff]
      exact Or.inl h
    · rcases charListLe_total as bs with ht | ht
      · left
        rw [charListLe_cons_iff]
        exact Or.inr ⟨h, ht⟩
      · right
        rw [charListLe_cons_iff]
        exact Or.inr ⟨h.symm, ht⟩
    · right
      rw [charListLe_cons_iff]
      exact Or.inl h

theorem charListLe_trans : ∀ a b c : List Char,
    charListLe a b = true → charListLe b c = true → charListLe a c = true
  | [], _, _ => fun _ _ => rfl
  | a :: as, [], _ => fun h _ => absurd h (by simp [charListLe])
  | _ :: _, _ :: _, [] => fun _ h => absurd h (by simp [charListLe])
  | a :: as, b :: bs, c :: cs => fun h1 h2 => by
    rw [charListLe_cons_iff] at h1 h2 ⊢
    rcases h1 with h1 | ⟨h1, ht1⟩
    · rcases h2 with h2 | ⟨h2, _⟩
      · exact Or.inl (h1.trans h2)
      · exact Or.inl (h2 ▸ h1)
    · rcases h2 with h2 | ⟨h2, ht2⟩
      · exact Or.inl (h1 ▸ h2)
      · exact Or.inr ⟨h1.trans h2, charListLe_trans as bs cs ht1 ht2⟩

theorem charListLe_antisymm : ∀ a b : List Char,
    charListLe a b = true → charListLe b a = true → a = b
  | [], [] => fun _ _ => rfl
  | [], _ :: _ => fun _ h => absurd h (by simp [charListLe])
  | _ :: _, [] => fun h _ => absurd h (by simp [charListLe])
  | a :: as, b :: bs => fun h1 h2 => by
    rw [charListLe_cons_iff] at h1 h2
    rcases h1 with h1 | ⟨h1, ht1⟩
    · rcases h2 with h2 | ⟨h2, _⟩
      · omega
      · omega
    · rcases h2 with h2 | ⟨h2, ht2⟩
      · omega
      · have hab : a = b := Char.ext (UInt32.ext h1)
        rw [hab, charListLe_antisymm as bs ht1 ht2]

theorem strLe_total (a b : String) : strLe a b = true ∨ strLe b a = true :=
  charListLe_total a.data b.data

theorem strLe_trans {a b c : String} (h1 : strLe a b = true) (h2 : strLe b c = true) :
    strLe a c = true :=
  charListLe_trans a.data b.data c.data h1 h2

theorem strLe_antisymm {a b : String} (h1 : strLe a b = true) (h2 : strLe b a = true) :
    a = b :=
  String.ext (charListLe_antisymm a.data b.data h1 h2)

instance : IsTotal String (fun a b => strLe a b = true) := ⟨strLe_total⟩

instance : IsTrans String (fun a b => strLe a b = true) :=
  ⟨fun _ _ _ => strLe_trans⟩

instance : IsAntisymm String (fun a b => strLe a b = true) :=
  ⟨fun _ _ => strLe_antisymm⟩

theorem strLt_iff {a b : String} : strLt a b = true ↔ strLe a b = true ∧ a ≠ b := by
  unfold strLt
  rw [Bool.and_eq_true, bne_iff_ne]

/-- The comparison configuration consumed by `DataComparator.__init__`:
`key_columns` and `fail_on_duplicate_keys`. -/
structure Config where
  key_columns : List String
  fail_on_duplicate_keys : Bool
  deriving DecidableEq, Repr

/-- The `ValueError`s raised by `comparison.py`, one constructor per raise
site: the first-row validation error of `_validate_key_columns` (which lists
every missing key column of a dataset's first row), the per-row error of
`_generate_row_key` (which names one missing key column), and the duplicate
key error of `_create_row_lookup`. -/
inductive CompareError where
  | missingKeyColumns (dataset : String) (columns : List String)
  | missingKeyColumn (column : String)
  | duplicateKey (key : String)
  deriving DecidableEq, Repr

instance {e a : Type} [DecidableEq e] [DecidableEq a] : DecidableEq (Except e a)
  | .error x, .error y =>
    if h : x = y then .isTrue (by rw [h]) else .isFalse (by simp [h])
  | .error _, .ok _ => .isFalse (by simp)
  | .ok _, .error _ => .isFalse (by simp)
  | .ok x, .ok y =>
    if h : x = y then .isTrue (by rw [h]) else .isFalse (by simp [h])

/-- The loop body of `_generate_row_key`: collect `str(row[key_col])` for each
key column in order, raising on the first key column absent from the row.
Values are already text, so `str` is the identity. -/
def generateRowKeyValues (row : Row) : List String → Except CompareError (List String)
  | [] => .ok []
  | keyCol :: rest =>
    if hasCol row keyCol then
      match generateRowKeyValues row rest with
      | .ok vs => .ok (getCol row keyCol :: vs)
      | .error e => .error e
    else .error (.missingKeyColumn keyCol)

/-- `DataComparator._generate_row_key`: the key column values joined with
`"|"`. -/
def generate_row_key (cfg : Config) (row : Row) : Except CompareError String :=
  match generateRowKeyValues row cfg.key_columns with
  | .ok vs => .ok (String.intercalate "|" vs)
  | .error e => .error e

/-- `DataComparator._generate_row_digest` computes the SHA-256 hex digest of
the row serialized as JSON with sorted keys (`json.dumps(row, sort_keys=True)`).
The digest is consumed only through equality tests, and the serialization is
injective on the key-sorted column/value list (and SHA-256 on it, up to hash
collisions), so the digest is embedded as that key-sorted list itself. -/
def generate_row_digest (row : Row) : List (String × String) :=
  row.insertionSort (fun p q => strLe p.1 q.1 = true)

/-- One value of `_create_row_lookup`'s lookup dictionary:
`{"row_digest": ..., "row_data": ...}`. -/
structure LookupEntry where
  row_digest : List (String × String)
  row_data : Row
  deriving DecidableEq, Repr

/-- The lookup dictionary of `_create_row_lookup`: a Python dict from row key
to entry, embedded as an association list with unique keys. -/
abbrev Lookup := List (String × LookupEntry)

/-- Python `lookup.get(row_key)` / `row_key in lookup`. -/
def lookupFind (l : Lookup) (k : String) : Option LookupEntry :=
  match l.find? (fun p => p.1 == k) with
  | some p => some p.2
  | none => none

/-- Python `lookup[row_key] = entry` for a fresh key (insertion order at the
end, as in a Python dict). -/
def lookupInsert (l : Lookup) (k : String) (e : LookupEntry) : Lookup :=
  l ++ [(k, e)]

/-- Python `lookup.pop(row_key)`'s effect on the dictionary. -/
def lookupRemove (l : Lookup) (k : String) : Lookup :=
  l.filter (fun p => p.1 != k)

/-- The key set of the lookup (`lookup.keys()` as a set). -/
def lookupKeys (l : Lookup) : Finset String :=
  (l.map Prod.fst).toFinset

/-- Python `sorted(...)` applied to a set of strings: the code-point sorted
list of the set's elements (well defined because sorting is invariant under
permutation of the underlying list). -/
def finsetSortLe (s : Finset String) : List String :=
  Quotient.liftOn s.val (fun l => l.insertionSort (fun a b => strLe a b = true))
    (fun l l' h =>
      List.eq_of_perm_of_sorted
        ((List.perm_insertionSort _ l).trans
          ((show l.Perm l' from h).trans (List.perm_insertionSort _ l').symm))
        (List.sorted_insertionSort _ l) (List.sorted_insertionSort _ l'))

/-- The loop of `DataComparator._create_row_lookup` over the remaining rows,
carrying the `lookup`, `columns`, `duplicates` and `duplicate_keys` state. -/
def createRowLookupAux (cfg : Config) :
    List Row → Lookup → Finset String → List Row → Finset String →
    Except CompareError (Lookup × Finset String × List Row)
  | [], lookup, columns, duplicates, _ => .ok (lookup, columns, duplicates)
  | row :: rest, lookup, columns, duplicates, duplicate_keys =>
    match generate_row_key cfg row with
    | .error e => .error e
    | .ok row_key =>
      if row_key ∈ duplicate_keys then
        createRowLookupAux cfg rest lookup columns (duplicates ++ [row]) duplicate_keys
      else
        match lookupFind lookup row_key with
        | some entry =>
          if cfg.fail_on_duplicate_keys then
            .error (.duplicateKey row_key)
          else
            createRowLookupAux cfg rest (lookupRemove lookup row_key) columns
              (duplicates ++ [entry.row_data, row]) (insert row_key duplicate_keys)
        | none =>
          createRowLookupAux cfg rest
            (lookupInsert lookup row_key ⟨generate_row_digest row, row⟩)
            (columns ∪ rowCols row) duplicates duplicate_keys

/-- `DataComparator._create_row_lookup`: returns the lookup, the observed
column set, and the duplicates list. -/
def create_row_lookup (cfg : Config) (data : List Row) :
    Except CompareError (Lookup × Finset String × List Row) :=
  createRowLookupAux cfg data [] ∅ [] ∅

/-- Per-dataset body of `DataComparator._validate_key_columns`: a non-empty
dataset whose first row misses some key columns raises, listing every missing
key column in `key_columns` order. -/
def validateDataset (cfg : Config) (name : String) : List Row → Except CompareError Unit
  | [] => .ok ()
  | firstRow :: _ =>
    let missing := cfg.key_columns.filter (fun c => !hasCol firstRow c)
    if missing.isEmpty then .ok () else .error (.missingKeyColumns name missing)

/-- `DataComparator._validate_key_columns`: returns immediately when both
datasets are empty, otherwise checks the first row of the first dataset, then
of the second. -/
def validate_key_columns (cfg : Config) (old_data new_data : List Row) :
    Except CompareError Unit :=
  if old_data.isEmpty && new_data.isEmpty then .ok ()
  else
    match validateDataset cfg "first" old_data with
    | .error e => .error e
    | .ok _ => validateDataset cfg "second" new_data

/-- `RowStatus` of `comparison.py`. -/
inductive RowStatus where
  | added
  | removed
  | changed
  deriving DecidableEq, Repr

/-- `RowStatus.value`: the status strings. -/
def RowStatus.value : RowStatus → String
  | .added => "Added"
  | .removed => "Removed"
  | .changed => "Changed"

/-- The argument tuple each loop iteration of `DataComparator.compare` passes
to `_format_compared_row` (the fields of a `ComparisonResult`).  `old_values`
and `new_values` are dicts built by inserting the non-key columns in order,
embedded as association lists in insertion order. -/
structure ComparisonResult where
  row_key : String
  status : RowStatus
  changed_columns : List String
  old_values : List (String × String)
  new_values : List (String × String)
  deriving DecidableEq, Repr

/-- The body of the `for row_key in sorted(all_row_keys)` loop of
`DataComparator.compare` for one row key: `none` when the iteration appends no
result, `some r` when it appends the result built from `r`'s fields. -/
def processRowKey (nonKeyColumns : List String) (oldRows newRows : Lookup)
    (k : String) : Option ComparisonResult :=
  match lookupFind oldRows k, lookupFind newRows k with
  | none, none => none
  | none, some en =>
    some { row_key := k, status := .added, changed_columns := [],
           old_values := nonKeyColumns.map (fun c => (c, "")),
           new_values := nonKeyColumns.map (fun c => (c, getCol en.row_data c)) }
  | some eo, none =>
    some { row_key := k, status := .removed, changed_columns := [],
           old_values := nonKeyColumns.map (fun c => (c, getCol eo.row_data c)),
           new_values := nonKeyColumns.map (fun c => (c, "")) }
  | some eo, some en =>
    if eo.row_digest = en.row_digest then none
    else
      let changed := nonKeyColumns.filter
        (fun c => getCol eo.row_data c != getCol en.row_data c)
      if changed.isEmpty then none
      else
        some { row_key := k, status := .changed, changed_columns := changed,
               old_values := nonKeyColumns.map (fun c => (c, getCol eo.row_data c)),
               new_values := nonKeyColumns.map (fun c => (c, getCol en.row_data c)) }

/-- `DataComparator.compare` up to (but not including) the per-result
`_format_compared_row` call: validation, the two lookups, the early return
when both lookups are empty, the sorted key union, the sorted non-key column
list, and the classification loop. -/
def compare_classified (cfg : Config) (old_data new_data : List Row) :
    Except CompareError (List ComparisonResult × List Row) :=
  match validate_key_columns cfg old_data new_data with
  | .error e => .error e
  | .ok _ =>
    match create_row_lookup cfg old_data with
    | .error e => .error e
    | .ok (old_rows, old_columns, old_duplicates) =>
      match create_row_lookup cfg new_data with
      | .error e => .error e
      | .ok (new_rows, new_columns, new_duplicates) =>
        let all_duplicates := old_duplicates ++ new_duplicates
        if old_rows.isEmpty && new_rows.isEmpty then .ok ([], all_duplicates)
        else
          let all_row_keys := lookupKeys old_rows ∪ lookupKeys new_rows
          let non_key_columns :=
            finsetSortLe ((old_columns ∪ new_columns) \ cfg.key_columns.toFinset)
          let results := (finsetSortLe all_row_keys).filterMap
            (processRowKey non_key_columns old_rows new_rows)
          .ok (results, all_duplicates)

/-- `DataComparator._format_compared_row`: the flat output dict, embedded as
an association list in Python dict insertion order. -/
def format_compared_row (r : ComparisonResult) : List (String × String) :=
  let all_columns := (r.old_values.map Prod.fst).toFinset ∪
    (r.new_values.map Prod.fst).toFinset
  let sorted_columns := finsetSortLe all_columns
  [("Row Key", r.row_key), ("Status", r.status.value),
   ("Changed Columns", String.intercalate ", " r.changed_columns)] ++
  sorted_columns.flatMap
    (fun c => [(c ++ " (Old)", getCol r.old_values c), (c ++ " (New)", getCol r.new_values c)])

/-- `DataComparator.compare`: the classification pipeline with every appended
result formatted by `_format_compared_row`. -/
def compare (cfg : Config) (old_data new_data : List Row) :
    Except CompareError (List (List (String × String)) × List Row) :=
  match compare_classified cfg old_data new_data with
  | .error e => .error e
  | .ok (results, duplicates) => .ok (results.map format_compared_row, duplicates)

/-! ### Derived notions used to state the properties -/

/-- The row key of a row, when every key column is present. -/
def rowKeyOf (cfg : Config) (row : Row) : Option String :=
  match generate_row_key cfg row with
  | .ok k => some k
  | .error _ => none

/-- How many rows of `data` carry the row key `k`. -/
def countKey (cfg : Config) (data : List Row) (k : String) : Nat :=
  data.countP (fun r => rowKeyOf cfg r == some k)

/-- The list of row keys of `data`, in order, skipping rows without one. -/
def keyList (cfg : Config) (data : List Row) : List String :=
  data.filterMap (rowKeyOf cfg)

/-- A row whose row key occurs at least twice in `data`. -/
def isDuplicatedRow (cfg : Config) (data : List Row) (r : Row) : Bool :=
  match rowKeyOf cfg r with
  | some k => 2 ≤ countKey cfg data k
  | none => false

/-- Union of the column names of all rows of a list. -/
def unionCols : List Row → Finset String
  | [] => ∅
  | row :: rest => rowCols row ∪ unionCols rest

theorem unionCols_nil : unionCols [] = ∅ := rfl

theorem unionCols_cons (row : Row) (rest : List Row) :
    unionCols (row :: rest) = rowCols row ∪ unionCols rest := rfl

/-- The first row of each distinct row key of `data` not already in `seen`,
scanning left to right (stopping at a row without a row key, where the
indexing loop itself stops with an error). -/
def firstOccurrences (cfg : Config) : List Row → Finset String → List Row
  | [], _ => []
  | row :: rest, seen =>
    match rowKeyOf cfg row with
    | none => []
    | some k =>
      if k ∈ seen then firstOccurrences cfg rest seen
      else row :: firstOccurrences cfg rest (insert k seen)

/-- The first row key of `data` repeating an earlier row key (the keys `seen`
counting as earlier), scanning left to right. -/
def firstDuplicateKey (cfg : Config) : List Row → Finset String → Option String
  | [], _ => none
  | row :: rest, seen =>
    match rowKeyOf cfg row with
    | none => none
    | some k =>
      if k ∈ seen then some k else firstDuplicateKey cfg rest (insert k seen)

/-! ### Basic lemmas about lookups and row keys -/

theorem lookupFind_eq_find? (l : Lookup) (k : String) :
    lookupFind l k = (l.find? (fun p => p.1 == k)).map Prod.snd := by
  unfold lookupFind
  cases h : l.find? (fun p => p.1 == k) <;> simp

theorem lookupFind_eq_none_iff {l : Lookup} {k : String} :
    lookupFind l k = none ↔ ∀ p ∈ l, p.1 ≠ k := by
  rw [lookupFind_eq_find?]
  cases h : l.find? (fun p => p.1 == k) with
  | none =>
    rw [List.find?_eq_none] at h
    simp only [Option.map_none', true_iff]
    intro p hp
    simpa using h p hp
  | some p =>
    simp only [Option.map_some', reduceCtorEq, false_iff, not_forall]
    have hm := List.mem_of_find?_eq_some h
    have hk := List.find?_some h
    exact ⟨p, hm, by simpa using hk⟩

theorem lookupFind_isSome_iff {l : Lookup} {k : String} :
    (lookupFind l k).isSome ↔ k ∈ lookupKeys l := by
  rw [lookupFind_eq_find?]
  unfold lookupKeys
  cases h : l.find? (fun p => p.1 == k) with
  | none =>
    rw [List.find?_eq_none] at h
    simp only [Option.map_none', Option.isSome_none, Bool.false_eq_true, false_iff]
    intro hmem
    rw [List.mem_toFinset, List.mem_map] at hmem
    rcases hmem with ⟨p, hp, hpk⟩
    exact (h p hp) (by simpa using hpk)
  | some p =>
    have hm := List.mem_of_find?_eq_some h
    have hk := List.find?_some h
    simp only [Option.map_some', Option.isSome_some, true_iff]
    rw [List.mem_toFinset, List.mem_map]
    exact ⟨p, hm, by simpa using hk⟩

theorem optionMapOr {α β : Type} (f : α → β) (a b : Option α) :
    (a.or b).map f = (a.map f).or (b.map f) := by
  cases a <;> rfl

theorem lookupFind_append (l₁ l₂ : Lookup) (k : String) :
    lookupFind (l₁ ++ l₂) k = (lookupFind l₁ k).or (lookupFind l₂ k) := by
  rw [lookupFind_eq_find?, lookupFind_eq_find?, lookupFind_eq_find?, List.find?_append,
    optionMapOr]

theorem lookupFind_insert_self {l : Lookup} {k : String} (e : LookupEntry) :
    lookupFind l k = none → lookupFind (lookupInsert l k e) k = some e := by
  intro h
  unfold lookupInsert
  rw [lookupFind_append, h]
  simp [lookupFind]

theorem lookupFind_insert_ne {l : Lookup} {k k' : String} (e : LookupEntry)
    (h : k ≠ k') : lookupFind (lookupInsert l k' e) k = lookupFind l k := by
  unfold lookupInsert
  rw [lookupFind_append]
  have hb : (k' == k) = false := by
    simpa using Ne.symm h
  have h2 : lookupFind [(k', e)] k = none := by
    simp [lookupFind, List.find?, hb]
  rw [h2]
  rcases lookupFind l k <;> rfl

theorem lookupFind_remove_self (l : Lookup) (k : String) :
    lookupFind (lookupRemove l k) k = none := by
  rw [lookupFind_eq_none_iff]
  intro p hp
  unfold lookupRemove at hp
  have := List.of_mem_filter hp
  simpa using this

theorem lookupFind_remove_ne {l : Lookup} {k k' : String} (h : k ≠ k') :
    lookupFind (lookupRemove l k') k = lookupFind l k := by
  unfold lookupRemove
  rw [lookupFind_eq_find?, lookupFind_eq_find?]
  congr 1
  induction l with
  | nil => rfl
  | cons p rest ih =>
    rw [List.filter_cons]
    by_cases hp : p.1 = k'
    · have hb : (p.1 != k') = false := by simp [hp]
      rw [hb]
      simp only [Bool.false_eq_true, if_false, ih]
      have hk : (p.1 == k) = false := by
        rw [hp]
        simpa using Ne.symm h
      simp only [List.find?_cons, hk]
    · have hb : (p.1 != k') = true := by simp [hp]
      rw [hb]
      simp only [if_true]
      by_cases hpk : p.1 = k
      · have hk : ((p.1 == k) = true) := by simp [hpk]
        simp only [List.find?_cons, hk]
      · have hk : (p.1 == k) = false := by simp [hpk]
        simp only [List.find?_cons, hk, ih]

theorem lookupFind_remove_of_none {l : Lookup} {k : String} (k' : String)
    (h : lookupFind l k = none) : lookupFind (lookupRemove l k') k = none := by
  by_cases hk : k = k'
  · subst hk; exact lookupFind_remove_self l k
  · rw [lookupFind_remove_ne hk]; exact h

theorem rowKeyOf_eq_some_iff {cfg : Config} {row : Row} {k : String} :
    rowKeyOf cfg row = some k ↔ generate_row_key cfg row = .ok k := by
  unfold rowKeyOf
  rcases h : generate_row_key cfg row <;> simp

theorem generateRowKeyValues_ok_iff (row : Row) (cols : List String) :
    (∃ vs, generateRowKeyValues row cols = .ok vs) ↔ ∀ c ∈ cols, hasCol row c := by
  induction cols with
  | nil => simp [generateRowKeyValues]
  | cons c rest ih =>
    unfold generateRowKeyValues
    by_cases hc : hasCol row c
    · rw [if_pos hc]
      constructor
      · intro ⟨vs, hvs⟩ c' hc'
        rcases List.mem_cons.mp hc' with h | h
        · exact h ▸ hc
        · rcases hr : generateRowKeyValues row rest with e | vs'
          · rw [hr] at hvs; exact absurd hvs (by simp)
          · exact (ih.mp ⟨vs', hr⟩) c' h
      · intro hall
        rcases ih.mpr (fun c' h => hall c' (List.mem_cons_of_mem _ h)) with ⟨vs, hvs⟩
        exact ⟨getCol row c :: vs, by rw [hvs]⟩
    · rw [if_neg hc]
      simp only [reduceCtorEq, exists_false, false_iff]
      intro hall
      exact hc (hall c (List.mem_cons_self c rest))

theorem generate_row_key_ok_iff (cfg : Config) (row : Row) :
    (∃ k, generate_row_key cfg row = .ok k) ↔ ∀ c ∈ cfg.key_columns, hasCol row c := by
  unfold generate_row_key
  rw [← generateRowKeyValues_ok_iff row cfg.key_columns]
  constructor
  · intro ⟨k, hk⟩
    rcases h : generateRowKeyValues row cfg.key_columns with e | vs
    · rw [h] at hk; exact absurd hk (by simp)
    · exact ⟨vs, rfl⟩
  · intro ⟨vs, hvs⟩
    exact ⟨String.intercalate "|" vs, by rw [hvs]⟩

theorem generateRowKeyValues_error_shape {row : Row} {cols : List String}
    {e : CompareError} (h : generateRowKeyValues row cols = .error e) :
    ∃ c, e = .missingKeyColumn c ∧ c ∈ cols ∧ ¬hasCol row c := by
  induction cols with
  | nil => exact absurd h (by simp [generateRowKeyValues])
  | cons c rest ih =>
    unfold generateRowKeyValues at h
    by_cases hc : hasCol row c
    · rw [if_pos hc] at h
      rcases hr : generateRowKeyValues row rest with e'' | vs'
      · rw [hr] at h
        simp only [Except.error.injEq] at h
        subst h
        rcases ih hr with ⟨c', h1, h2, h3⟩
        exact ⟨c', h1, List.mem_cons_of_mem _ h2, h3⟩
      · rw [hr] at h; exact absurd h (by simp)
    · rw [if_neg hc] at h
      simp only [Except.error.injEq] at h
      exact ⟨c, h.symm, List.mem_cons_self c rest, hc⟩

theorem generate_row_key_error_shape {cfg : Config} {row : Row} {e : CompareError}
    (h : generate_row_key cfg row = .error e) :
    ∃ c, e = .missingKeyColumn c ∧ c ∈ cfg.key_columns ∧ ¬hasCol row c := by
  unfold generate_row_key at h
  rcases hv : generateRowKeyValues row cfg.key_columns with e' | vs
  · rw [hv] at h
    simp only [Except.error.injEq] at h
    subst h
    exact generateRowKeyValues_error_shape hv
  · rw [hv] at h; exact absurd h (by simp)

/-! ### Characterization of the lookup built by the indexing loop -/

theorem countKey_cons (cfg : Config) (row : Row) (rest : List Row) (k : String) :
    countKey cfg (row :: rest) k =
      countKey cfg rest k + (if rowKeyOf cfg row = some k then 1 else 0) := by
  unfold countKey
  rw [List.countP_cons]
  congr 1
  by_cases h : rowKeyOf cfg row = some k
  · simp [h]
  · simp [h]

theorem countKey_cons_ne {cfg : Config} {row : Row} {rk k : String}
    (hkey : rowKeyOf cfg row = some rk) (hne : k ≠ rk) (rest : List Row) :
    countKey cfg (row :: rest) k = countKey cfg rest k := by
  rw [countKey_cons]
  have : ¬(rowKeyOf cfg row = some k) := by
    rw [hkey]
    simpa using Ne.symm hne
  rw [if_neg this]
  omega

theorem countKey_cons_self {cfg : Config} {row : Row} {rk : String}
    (hkey : rowKeyOf cfg row = some rk) (rest : List Row) :
    countKey cfg (row :: rest) rk = countKey cfg rest rk + 1 := by
  rw [countKey_cons, if_pos hkey]

theorem findRow_cons_ne {cfg : Config} {row : Row} {rk k : String}
    (hkey : rowKeyOf cfg row = some rk) (hne : k ≠ rk) (rest : List Row) :
    (row :: rest).find? (fun r => rowKeyOf cfg r == some k) =
      rest.find? (fun r => rowKeyOf cfg r == some k) := by
  have : (rowKeyOf cfg row == some k) = false := by
    rw [hkey]
    simpa using fun hh => hne (by simp [hh])
  simp only [List.find?_cons, this]

theorem findRow_cons_self {cfg : Config} {row : Row} {rk : String}
    (hkey : rowKeyOf cfg row = some rk) (rest : List Row) :
    (row :: rest).find? (fun r => rowKeyOf cfg r == some rk) = some row := by
  have : (rowKeyOf cfg row == some rk) = true := by simp [hkey]
  simp only [List.find?_cons, this]

theorem createRowLookupAux_find (cfg : Config) (data : List Row) :
    ∀ lookup columns duplicates dupKeys l c d,
    createRowLookupAux cfg data lookup columns duplicates dupKeys = .ok (l, c, d) →
    (∀ k ∈ dupKeys, lookupFind lookup k = none) →
    ∀ k, lookupFind l k =
      if k ∈ dupKeys then none
      else
        match lookupFind lookup k with
        | some e => if countKey cfg data k = 0 then some e else none
        | none =>
          if countKey cfg data k = 1 then
            (data.find? (fun r => rowKeyOf cfg r == some k)).map
              (fun r => ⟨generate_row_digest r, r⟩)
          else none := by
  induction data with
  | nil =>
    intro lookup columns duplicates dupKeys l c d h hinv k
    unfold createRowLookupAux at h
    simp only [Except.ok.injEq, Prod.mk.injEq] at h
    obtain ⟨h1, _, _⟩ := h
    subst h1
    by_cases hdk : k ∈ dupKeys
    · rw [if_pos hdk]
      exact hinv k hdk
    · rw [if_neg hdk]
      rcases hf : lookupFind lookup k with _ | e
      · simp [countKey]
      · simp [countKey]
  | cons row rest ih =>
    intro lookup columns duplicates dupKeys l c d h hinv k
    rw [createRowLookupAux] at h
    rcases hg : generate_row_key cfg row with e | rk
    · rw [hg] at h; exact absurd h (by simp)
    rw [hg] at h
    simp only [] at h
    have hkey : rowKeyOf cfg row = some rk := rowKeyOf_eq_some_iff.mpr hg
    by_cases hdk : rk ∈ dupKeys
    · -- known duplicate: state unchanged
      rw [if_pos hdk] at h
      have hres := ih _ _ _ _ _ _ _ h hinv k
      by_cases hk : k ∈ dupKeys
      · rw [if_pos hk] at hres ⊢
        exact hres
      · rw [if_neg hk] at hres ⊢
        have hne : k ≠ rk := fun hh => hk (hh ▸ hdk)
        rw [countKey_cons_ne hkey hne, findRow_cons_ne hkey hne]
        exact hres
    · rw [if_neg hdk] at h
      rcases hf : lookupFind lookup rk with _ | entry
      · -- fresh key: inserted
        rw [hf] at h
        simp only [] at h
        have hinv2 : ∀ k' ∈ dupKeys,
            lookupFind (lookupInsert lookup rk ⟨generate_row_digest row, row⟩) k' = none := by
          intro k' hk'
          have hne : k' ≠ rk := fun hh => hdk (hh ▸ hk')
          rw [lookupFind_insert_ne _ hne]
          exact hinv k' hk'
        have hres := ih _ _ _ _ _ _ _ h hinv2 k
        by_cases hk : k ∈ dupKeys
        · rw [if_pos hk] at hres ⊢
          exact hres
        · rw [if_neg hk] at hres ⊢
          by_cases hkr : k = rk
          · subst hkr
            rw [lookupFind_insert_self _ hf] at hres
            rw [hf, countKey_cons_self hkey, findRow_cons_self hkey]
            rcases hc0 : countKey cfg rest k with _ | n
            · rw [hc0] at hres
              simp only [if_pos rfl] at hres
              rw [hres]
              simp
            · rw [hc0] at hres
              simp only [Nat.succ_ne_zero, if_false] at hres
              rw [hres]
              simp
          · rw [lookupFind_insert_ne _ hkr] at hres
            rw [countKey_cons_ne hkey hkr, findRow_cons_ne hkey hkr]
            exact hres
      · -- collision: original moved to duplicates
        rw [hf] at h
        simp only [] at h
        rcases hfail : cfg.fail_on_duplicate_keys with _ | _
        · rw [hfail] at h
          simp only [Bool.false_eq_true, if_false] at h
          have hinv2 : ∀ k' ∈ insert rk dupKeys, lookupFind (lookupRemove lookup rk) k' = none := by
            intro k' hk'
            rcases Finset.mem_insert.mp hk' with hh | hh
            · subst hh
              exact lookupFind_remove_self lookup k'
            · exact lookupFind_remove_of_none rk (hinv k' hh)
          have hres := ih _ _ _ _ _ _ _ h hinv2 k
          by_cases hk : k ∈ dupKeys
          · rw [if_pos hk]
            rw [if_pos (Finset.mem_insert_of_mem hk)] at hres
            exact hres
          · rw [if_neg hk]
            by_cases hkr : k = rk
            · subst hkr
              rw [if_pos (Finset.mem_insert_self k dupKeys)] at hres
              rw [hf, countKey_cons_self hkey]
              simp only [Nat.succ_ne_zero, if_false]
              exact hres
            · have hnotin : k ∉ insert rk dupKeys := by
                rw [Finset.mem_insert]
                push_neg
                exact ⟨hkr, hk⟩
              rw [if_neg hnotin] at hres
              rw [lookupFind_remove_ne hkr] at hres
              rw [countKey_cons_ne hkey hkr, findRow_cons_ne hkey hkr]
              exact hres
        · rw [hfail] at h
          simp only [if_true] at h
          exact absurd h (by simp)

theorem create_row_lookup_find {cfg : Config} {data : List Row}
    {l : Lookup} {c : Finset String} {d : List Row}
    (h : create_row_lookup cfg data = .ok (l, c, d)) (k : String) :
    lookupFind l k =
      if countKey cfg data k = 1 then
        (data.find? (fun r => rowKeyOf cfg r == some k)).map
          (fun r => ⟨generate_row_digest r, r⟩)
      else none := by
  have hres := createRowLookupAux_find cfg data [] ∅ [] ∅ l c d h (by simp) k
  rw [if_neg (Finset.not_mem_empty k)] at hres
  have hnil : lookupFind ([] : Lookup) k = none := rfl
  rw [hnil] at hres
  exact hres

/-! ### Characterization of the duplicates list built by the indexing loop -/

/-- Some row of `data` has row key `k`. -/
def occursKey (cfg : Config) (data : List Row) (k : String) : Bool :=
  data.any (fun r => rowKeyOf cfg r == some k)

theorem occursKey_cons_ne {cfg : Config} {row : Row} {rk k : String}
    (hkey : rowKeyOf cfg row = some rk) (hne : k ≠ rk) (rest : List Row) :
    occursKey cfg (row :: rest) k = occursKey cfg rest k := by
  unfold occursKey
  rw [List.any_cons]
  have : (rowKeyOf cfg row == some k) = false := by
    rw [hkey]
    simpa using fun hh => hne (by simp [hh])
  rw [this, Bool.false_or]

theorem occursKey_cons_self {cfg : Config} {row : Row} {rk : String}
    (hkey : rowKeyOf cfg row = some rk) (rest : List Row) :
    occursKey cfg (row :: rest) rk = true := by
  unfold occursKey
  rw [List.any_cons]
  have : (rowKeyOf cfg row == some rk) = true := by simp [hkey]
  rw [this, Bool.true_or]

theorem countKey_pos_iff_occurs {cfg : Config} {data : List Row} {k : String} :
    1 ≤ countKey cfg data k ↔ occursKey cfg data k = true := by
  unfold countKey occursKey
  rw [List.any_eq_true]
  exact List.countP_pos_iff

theorem countKey_eq_zero_iff_not_occurs {cfg : Config} {data : List Row} {k : String} :
    countKey cfg data k = 0 ↔ occursKey cfg data k = false := by
  constructor
  · intro h
    rcases hocc : occursKey cfg data k with _ | _
    · rfl
    · have := countKey_pos_iff_occurs.mpr hocc
      omega
  · intro h
    by_contra hne
    have h1 : 1 ≤ countKey cfg data k := by omega
    rw [countKey_pos_iff_occurs.mp h1] at h
    exact absurd h (by simp)

/-- A row of the remaining input that will end up in the duplicates list,
given the loop state: its key is already flagged, or already stored in the
lookup, or occurs at least twice in the remaining input. -/
def willBeDuplicate (cfg : Config) (lookup : Lookup) (dupKeys : Finset String)
    (data : List Row) (r : Row) : Bool :=
  match rowKeyOf cfg r with
  | none => false
  | some k => decide (k ∈ dupKeys) || (lookupFind lookup k).isSome ||
      decide (2 ≤ countKey cfg data k)

/-- The rows already stored in the lookup that the remaining input will force
out into the duplicates list. -/
def movedOriginals (cfg : Config) (lookup : Lookup) (data : List Row) : List Row :=
  (lookup.filter (fun p => occursKey cfg data p.1)).map (fun p => p.2.row_data)

theorem lookup_perm_cons_remove {l : Lookup} {k : String} {e : LookupEntry}
    (hnd : (l.map Prod.fst).Nodup) (hf : lookupFind l k = some e) :
    l.Perm ((k, e) :: lookupRemove l k) := by
  induction l with
  | nil => exact absurd hf (by simp [lookupFind])
  | cons p rest ih =>
    rw [List.map_cons, List.nodup_cons] at hnd
    by_cases hp : p.1 = k
    · have hpe : p.2 = e := by
        have : lookupFind (p :: rest) k = some p.2 := by
          rw [lookupFind_eq_find?, List.find?_cons_of_pos _ (by simp [hp])]
          rfl
        rw [hf] at this
        exact (Option.some.injEq _ _ ▸ this).symm
      have hrest : lookupRemove (p :: rest) k = lookupRemove rest k := by
        unfold lookupRemove
        rw [List.filter_cons, if_neg (by simp [hp])]
      have hrest2 : lookupRemove rest k = rest := by
        unfold lookupRemove
        rw [List.filter_eq_self]
        intro q hq
        have : q.1 ≠ k := by
          intro hqk
          apply hnd.1
          have hq1 : q.1 ∈ rest.map Prod.fst := List.mem_map_of_mem Prod.fst hq
          rw [hqk, ← hp] at hq1
          exact hq1
        simpa using this
      rw [hrest, hrest2]
      have : p = (k, e) := Prod.ext hp hpe
      rw [this]
    · have hfrest : lookupFind rest k = some e := by
        rw [lookupFind_eq_find?] at hf ⊢
        rw [List.find?_cons_of_neg _ (by simp [hp])] at hf
        exact hf
      have hrest : lookupRemove (p :: rest) k = p :: lookupRemove rest k := by
        unfold lookupRemove
        rw [List.filter_cons, if_pos (by simp [hp])]
      rw [hrest]
      exact (List.Perm.cons p (ih hnd.2 hfrest)).trans (List.Perm.swap (k, e) p _)

theorem createRowLookupAux_dups (cfg : Config) (data : List Row) :
    ∀ lookup columns duplicates dupKeys l c d,
    createRowLookupAux cfg data lookup columns duplicates dupKeys = .ok (l, c, d) →
    (∀ k ∈ dupKeys, lookupFind lookup k = none) →
    (lookup.map Prod.fst).Nodup →
    (↑d : Multiset Row) =
      ↑duplicates + ↑(data.filter (willBeDuplicate cfg lookup dupKeys data)) +
        ↑(movedOriginals cfg lookup data) := by
  induction data with
  | nil =>
    intro lookup columns duplicates dupKeys l c d h hinv hnd
    unfold createRowLookupAux at h
    simp only [Except.ok.injEq, Prod.mk.injEq] at h
    obtain ⟨_, _, h3⟩ := h
    subst h3
    simp [movedOriginals, occursKey]
  | cons row rest ih =>
    intro lookup columns duplicates dupKeys l c d h hinv hnd
    rw [createRowLookupAux] at h
    rcases hg : generate_row_key cfg row with e | rk
    · rw [hg] at h; exact absurd h (by simp)
    rw [hg] at h
    simp only [] at h
    have hkey : rowKeyOf cfg row = some rk := rowKeyOf_eq_some_iff.mpr hg
    by_cases hdk : rk ∈ dupKeys
    · -- known duplicate: row goes straight to the duplicates list
      rw [if_pos hdk] at h
      have hres := ih _ _ _ _ _ _ _ h hinv hnd
      have hrowW : willBeDuplicate cfg lookup dupKeys (row :: rest) row = true := by
        unfold willBeDuplicate
        rw [hkey]
        simp [hdk]
      have hcongr : rest.filter (willBeDuplicate cfg lookup dupKeys (row :: rest)) =
          rest.filter (willBeDuplicate cfg lookup dupKeys rest) := by
        apply List.filter_congr
        intro r _
        unfold willBeDuplicate
        rcases hk : rowKeyOf cfg r with _ | k
        · rfl
        · simp only []
          by_cases hkr : k = rk
          · subst hkr
            simp [hdk]
          · rw [countKey_cons_ne hkey hkr]
      have hmoved : movedOriginals cfg lookup (row :: rest) = movedOriginals cfg lookup rest := by
        unfold movedOriginals
        congr 1
        apply List.filter_congr
        intro p hp
        have hpne : p.1 ≠ rk := lookupFind_eq_none_iff.mp (hinv rk hdk) p hp
        exact occursKey_cons_ne hkey hpne rest
      rw [List.filter_cons, if_pos hrowW, hcongr, hmoved, hres]
      simp only [← Multiset.coe_add, ← Multiset.cons_coe, ← Multiset.singleton_add,
        Multiset.coe_nil, add_zero]
      abel
    · rw [if_neg hdk] at h
      rcases hf : lookupFind lookup rk with _ | entry
      · -- fresh key: row inserted into the lookup
        rw [hf] at h
        simp only [] at h
        have hrknotmem : rk ∉ lookup.map Prod.fst := by
          intro hmem
          have h1 : (lookupFind lookup rk).isSome := by
            rw [lookupFind_isSome_iff]
            exact List.mem_toFinset.mpr hmem
          rw [hf] at h1
          exact absurd h1 (by simp)
        have hinv2 : ∀ k' ∈ dupKeys,
            lookupFind (lookupInsert lookup rk ⟨generate_row_digest row, row⟩) k' = none := by
          intro k' hk'
          have hne : k' ≠ rk := fun hh => hdk (hh ▸ hk')
          rw [lookupFind_insert_ne _ hne]
          exact hinv k' hk'
        have hnd2 : ((lookupInsert lookup rk ⟨generate_row_digest row, row⟩).map Prod.fst).Nodup := by
          unfold lookupInsert
          rw [List.map_append]
          simp only [List.map_cons, List.map_nil]
          rw [List.nodup_append]
          refine ⟨hnd, List.nodup_singleton rk, ?_⟩
          intro a ha hb
          rw [List.mem_singleton] at hb
          exact hrknotmem (hb ▸ ha)
        have hres := ih _ _ _ _ _ _ _ h hinv2 hnd2
        have hrowW : willBeDuplicate cfg lookup dupKeys (row :: rest) row =
            occursKey cfg rest rk := by
          unfold willBeDuplicate
          rw [hkey]
          simp only []
          rw [hf]
          have h1 : (decide (rk ∈ dupKeys)) = false := by simp [hdk]
          rw [h1]
          simp only [Option.isSome_none, Bool.false_or]
          rw [countKey_cons_self hkey]
          rcases hocc : occursKey cfg rest rk with _ | _
          · have h0 : countKey cfg rest rk = 0 := countKey_eq_zero_iff_not_occurs.mpr hocc
            rw [h0]
            exact decide_eq_false (by omega)
          · have h1' : 1 ≤ countKey cfg rest rk := countKey_pos_iff_occurs.mpr hocc
            exact decide_eq_true (by omega)
        have hcongr : rest.filter (willBeDuplicate cfg lookup dupKeys (row :: rest)) =
            rest.filter (willBeDuplicate cfg
              (lookupInsert lookup rk ⟨generate_row_digest row, row⟩) dupKeys rest) := by
          apply List.filter_congr
          intro r hr
          unfold willBeDuplicate
          rcases hk : rowKeyOf cfg r with _ | k
          · rfl
          · simp only []
            by_cases hkr : k = rk
            · subst hkr
              have hmem : 1 ≤ countKey cfg rest k := by
                rw [countKey_pos_iff_occurs]
                unfold occursKey
                rw [List.any_eq_true]
                exact ⟨r, hr, by simp [hk]⟩
              have h2 : 2 ≤ countKey cfg (row :: rest) k := by
                rw [countKey_cons_self hkey]
                omega
              rw [lookupFind_insert_self _ hf]
              simp [h2]
            · rw [countKey_cons_ne hkey hkr, lookupFind_insert_ne _ hkr]
        have hmovedc : movedOriginals cfg lookup (row :: rest) =
            movedOriginals cfg lookup rest := by
          unfold movedOriginals
          congr 1
          apply List.filter_congr
          intro p hp
          have hpne : p.1 ≠ rk := by
            intro hh
            exact hrknotmem (hh ▸ List.mem_map_of_mem Prod.fst hp)
          exact occursKey_cons_ne hkey hpne rest
        have hmovedi : movedOriginals cfg
            (lookupInsert lookup rk ⟨generate_row_digest row, row⟩) rest =
            movedOriginals cfg lookup rest ++
              (if occursKey cfg rest rk then [row] else []) := by
          unfold movedOriginals lookupInsert
          rw [List.filter_append, List.map_append]
          congr 1
          rw [List.filter_cons]
          rcases hocc : occursKey cfg rest rk with _ | _
          · simp
          · simp
        rw [hres, List.filter_cons]
        rcases hocc : occursKey cfg rest rk with _ | _
        · simp only [hocc, Bool.false_eq_true, if_false, List.append_nil] at hmovedi
          have hWn : ¬(willBeDuplicate cfg lookup dupKeys (row :: rest) row = true) := by
            rw [hrowW, hocc]
            simp
          rw [if_neg hWn, hcongr, hmovedc, hmovedi]
        · simp only [hocc, eq_self_iff_true, if_true] at hmovedi
          have hW : willBeDuplicate cfg lookup dupKeys (row :: rest) row = true :=
            hrowW.trans hocc
          rw [if_pos hW, hcongr, hmovedc, hmovedi]
          simp only [← Multiset.coe_add, ← Multiset.cons_coe, ← Multiset.singleton_add,
            Multiset.coe_nil, add_zero]
          abel
      · -- collision: stored original and current row both become duplicates
        rw [hf] at h
        simp only [] at h
        rcases hfail : cfg.fail_on_duplicate_keys with _ | _
        · rw [hfail] at h
          simp only [Bool.false_eq_true, if_false] at h
          have hinv2 : ∀ k' ∈ insert rk dupKeys,
              lookupFind (lookupRemove lookup rk) k' = none := by
            intro k' hk'
            rcases Finset.mem_insert.mp hk' with hh | hh
            · subst hh
              exact lookupFind_remove_self lookup k'
            · exact lookupFind_remove_of_none rk (hinv k' hh)
          have hnd2 : ((lookupRemove lookup rk).map Prod.fst).Nodup :=
            List.Nodup.sublist (List.Sublist.map Prod.fst (List.filter_sublist lookup)) hnd
          have hres := ih _ _ _ _ _ _ _ h hinv2 hnd2
          have hrowW : willBeDuplicate cfg lookup dupKeys (row :: rest) row = true := by
            unfold willBeDuplicate
            rw [hkey]
            simp only []
            rw [hf]
            simp
          have hcongr : rest.filter (willBeDuplicate cfg lookup dupKeys (row :: rest)) =
              rest.filter (willBeDuplicate cfg (lookupRemove lookup rk)
                (insert rk dupKeys) rest) := by
            apply List.filter_congr
            intro r _
            unfold willBeDuplicate
            rcases hk : rowKeyOf cfg r with _ | k
            · rfl
            · simp only []
              by_cases hkr : k = rk
              · subst hkr
                rw [hf]
                have h1 : decide (k ∈ insert k dupKeys) = true := by
                  simp
                rw [h1]
                simp
              · rw [countKey_cons_ne hkey hkr, lookupFind_remove_ne hkr]
                have h1 : decide (k ∈ insert rk dupKeys) = decide (k ∈ dupKeys) := by
                  simp [Finset.mem_insert, hkr]
                rw [h1]
          have hperm : lookup.Perm ((rk, entry) :: lookupRemove lookup rk) :=
            lookup_perm_cons_remove hnd hf
          have hmoved : (↑(movedOriginals cfg lookup (row :: rest)) : Multiset Row) =
              entry.row_data ::ₘ
                ↑(movedOriginals cfg (lookupRemove lookup rk) rest) := by
            unfold movedOriginals
            have h1 := (hperm.filter (fun p => occursKey cfg (row :: rest) p.1)).map
              (fun p => p.2.row_data)
            rw [Multiset.coe_eq_coe.mpr h1]
            rw [List.filter_cons]
            have hocc : occursKey cfg (row :: rest) rk = true := occursKey_cons_self hkey rest
            rw [if_pos (show occursKey cfg (row :: rest) (rk, entry).1 = true from hocc)]
            rw [List.map_cons]
            have hfilter : List.filter (fun p => occursKey cfg (row :: rest) p.1)
                  (lookupRemove lookup rk) =
                List.filter (fun p => occursKey cfg rest p.1) (lookupRemove lookup rk) := by
              apply List.filter_congr
              intro p hp
              have hpne : p.1 ≠ rk := by
                have := List.of_mem_filter hp
                simpa using this
              exact occursKey_cons_ne hkey hpne rest
            rw [hfilter, ← Multiset.cons_coe]
          rw [List.filter_cons, if_pos hrowW, hcongr, hres, hmoved]
          simp only [← Multiset.coe_add, ← Multiset.cons_coe, ← Multiset.singleton_add,
            Multiset.coe_nil, add_zero]
          abel
        · rw [hfail] at h
          simp only [if_true] at h
          exact absurd h (by simp)

/-- The duplicates list returned by `_create_row_lookup` is, up to order, the
rows whose key occurs at least twice in the dataset. -/
theorem create_row_lookup_dups {cfg : Config} {data : List Row}
    {l : Lookup} {c : Finset String} {d : List Row}
    (h : create_row_lookup cfg data = .ok (l, c, d)) :
    d.Perm (data.filter (isDuplicatedRow cfg data)) := by
  have hres := createRowLookupAux_dups cfg data [] ∅ [] ∅ l c d h (by simp) (by simp)
  have hmoved : movedOriginals cfg ([] : Lookup) data = [] := by
    simp [movedOriginals]
  rw [hmoved] at hres
  have hcongr : data.filter (willBeDuplicate cfg ([] : Lookup) ∅ data) =
      data.filter (isDuplicatedRow cfg data) := by
    apply List.filter_congr
    intro r _
    unfold willBeDuplicate isDuplicatedRow
    rcases hk : rowKeyOf cfg r with _ | k
    · rfl
    · simp only []
      have h1 : lookupFind ([] : Lookup) k = none := rfl
      rw [h1]
      simp
  rw [hcongr] at hres
  rw [← Multiset.coe_eq_coe]
  simpa using hres

/-! ### Characterization of the observed-columns set built by the indexing loop -/

theorem createRowLookupAux_cols (cfg : Config) (data : List Row) :
    ∀ lookup columns duplicates dupKeys l c d seen,
    createRowLookupAux cfg data lookup columns duplicates dupKeys = .ok (l, c, d) →
    (∀ k, k ∈ seen ↔ (k ∈ dupKeys ∨ (lookupFind lookup k).isSome)) →
    c = columns ∪ unionCols (firstOccurrences cfg data seen) := by
  induction data with
  | nil =>
    intro lookup columns duplicates dupKeys l c d seen h _
    unfold createRowLookupAux at h
    simp only [Except.ok.injEq, Prod.mk.injEq] at h
    obtain ⟨_, h2, _⟩ := h
    subst h2
    simp [firstOccurrences, unionCols]
  | cons row rest ih =>
    intro lookup columns duplicates dupKeys l c d seen h hseen
    rw [createRowLookupAux] at h
    rcases hg : generate_row_key cfg row with e | rk
    · rw [hg] at h; exact absurd h (by simp)
    rw [hg] at h
    simp only [] at h
    have hkey : rowKeyOf cfg row = some rk := rowKeyOf_eq_some_iff.mpr hg
    unfold firstOccurrences
    rw [hkey]
    simp only []
    by_cases hdk : rk ∈ dupKeys
    · rw [if_pos hdk] at h
      have hmem : rk ∈ seen := (hseen rk).mpr (Or.inl hdk)
      rw [if_pos hmem]
      exact ih _ _ _ _ _ _ _ _ h hseen
    · rw [if_neg hdk] at h
      rcases hf : lookupFind lookup rk with _ | entry
      · rw [hf] at h
        simp only [] at h
        have hnmem : rk ∉ seen := by
          intro hmem
          rcases (hseen rk).mp hmem with hh | hh
          · exact hdk hh
          · rw [hf] at hh; exact absurd hh (by simp)
        rw [if_neg hnmem]
        have hseen2 : ∀ k, k ∈ insert rk seen ↔ (k ∈ dupKeys ∨
            (lookupFind (lookupInsert lookup rk ⟨generate_row_digest row, row⟩) k).isSome) := by
          intro k
          rw [Finset.mem_insert]
          constructor
          · intro hk
            rcases hk with hk | hk
            · subst hk
              right
              rw [lookupFind_insert_self _ hf]
              simp
            · rcases (hseen k).mp hk with hh | hh
              · exact Or.inl hh
              · right
                by_cases hkr : k = rk
                · subst hkr
                  rw [lookupFind_insert_self _ hf]
                  simp
                · rw [lookupFind_insert_ne _ hkr]
                  exact hh
          · intro hk
            rcases hk with hh | hh
            · exact Or.inr ((hseen k).mpr (Or.inl hh))
            · by_cases hkr : k = rk
              · exact Or.inl hkr
              · rw [lookupFind_insert_ne _ hkr] at hh
                exact Or.inr ((hseen k).mpr (Or.inr hh))
        have hres := ih _ _ _ _ _ _ _ _ h hseen2
        rw [hres, unionCols_cons, Finset.union_assoc]
      · rw [hf] at h
        simp only [] at h
        rcases hfail : cfg.fail_on_duplicate_keys with _ | _
        · rw [hfail] at h
          simp only [Bool.false_eq_true, if_false] at h
          have hmem : rk ∈ seen := (hseen rk).mpr (Or.inr (by rw [hf]; simp))
          rw [if_pos hmem]
          have hseen2 : ∀ k, k ∈ seen ↔ (k ∈ insert rk dupKeys ∨
              (lookupFind (lookupRemove lookup rk) k).isSome) := by
            intro k
            rw [Finset.mem_insert]
            constructor
            · intro hk
              rcases (hseen k).mp hk with hh | hh
              · exact Or.inl (Or.inr hh)
              · by_cases hkr : k = rk
                · exact Or.inl (Or.inl hkr)
                · right
                  rw [lookupFind_remove_ne hkr]
                  exact hh
            · intro hk
              rcases hk with (hh | hh) | hh
              · subst hh; exact hmem
              · exact (hseen k).mpr (Or.inl hh)
              · by_cases hkr : k = rk
                · subst hkr
                  rw [lookupFind_remove_self] at hh
                  exact absurd hh (by simp)
                · rw [lookupFind_remove_ne hkr] at hh
                  exact (hseen k).mpr (Or.inr hh)
          exact ih _ _ _ _ _ _ _ _ h hseen2
        · rw [hfail] at h
          simp only [if_true] at h
          exact absurd h (by simp)

/-- The observed-columns set of `_create_row_lookup` is the union of the
column names of the first row of each distinct key. -/
theorem create_row_lookup_cols {cfg : Config} {data : List Row}
    {l : Lookup} {c : Finset String} {d : List Row}
    (h : create_row_lookup cfg data = .ok (l, c, d)) :
    c = unionCols (firstOccurrences cfg data ∅) := by
  have hres := createRowLookupAux_cols cfg data [] ∅ [] ∅ l c d ∅ h ?_
  · simpa using hres
  · intro k
    have h1 : lookupFind ([] : Lookup) k = none := rfl
    simp [h1]

/-! ### The indexing loop on datasets with pairwise distinct row keys -/

theorem keyList_cons_of_key {cfg : Config} {row : Row} {rk : String}
    (hkey : rowKeyOf cfg row = some rk) (rest : List Row) :
    keyList cfg (row :: rest) = rk :: keyList cfg rest := by
  unfold keyList
  rw [List.filterMap_cons, hkey]

theorem createRowLookupAux_nodup (cfg : Config) (data : List Row) :
    ∀ lookup columns duplicates dupKeys,
    (∀ r ∈ data, ∃ k, rowKeyOf cfg r = some k) →
    ((lookup.map Prod.fst) ++ keyList cfg data).Nodup →
    (∀ r ∈ data, ∀ k, rowKeyOf cfg r = some k → k ∉ dupKeys) →
    createRowLookupAux cfg data lookup columns duplicates dupKeys =
      .ok (lookup ++ data.map
          (fun r => ((rowKeyOf cfg r).getD "", ⟨generate_row_digest r, r⟩)),
        columns ∪ unionCols data, duplicates) := by
  induction data with
  | nil =>
    intro lookup columns duplicates dupKeys _ _ _
    unfold createRowLookupAux
    simp [unionCols]
  | cons row rest ih =>
    intro lookup columns duplicates dupKeys hok hnd hdkf
    obtain ⟨rk, hkey⟩ := hok row (List.mem_cons_self row rest)
    have hg : generate_row_key cfg row = .ok rk := rowKeyOf_eq_some_iff.mp hkey
    rw [createRowLookupAux, hg]
    simp only []
    have hdk : rk ∉ dupKeys := hdkf row (List.mem_cons_self row rest) rk hkey
    rw [if_neg hdk]
    rw [keyList_cons_of_key hkey] at hnd
    have hnd' : ((lookup.map Prod.fst ++ [rk]) ++ keyList cfg rest).Nodup := by
      rw [List.append_assoc, List.singleton_append]
      exact hnd
    have hrknotin : rk ∉ lookup.map Prod.fst := by
      intro hmem
      have h1 : (lookup.map Prod.fst ++ rk :: keyList cfg rest).Nodup := hnd
      rw [List.nodup_append] at h1
      exact h1.2.2 hmem (List.mem_cons_self rk _)
    have hf : lookupFind lookup rk = none := by
      rw [lookupFind_eq_none_iff]
      intro p hp hpk
      exact hrknotin (hpk ▸ List.mem_map_of_mem Prod.fst hp)
    rw [hf]
    simp only []
    have hnd2 : (((lookupInsert lookup rk ⟨generate_row_digest row, row⟩).map Prod.fst)
        ++ keyList cfg rest).Nodup := by
      unfold lookupInsert
      rw [List.map_append]
      exact hnd'
    have hres := ih (lookupInsert lookup rk ⟨generate_row_digest row, row⟩)
      (columns ∪ rowCols row) duplicates dupKeys
      (fun r hr => hok r (List.mem_cons_of_mem row hr)) hnd2
      (fun r hr k hk => hdkf r (List.mem_cons_of_mem row hr) k hk)
    rw [hres]
    unfold lookupInsert
    rw [unionCols_cons, Finset.union_assoc, List.map_cons, hkey, Option.getD_some,
      List.append_assoc, List.singleton_append]

/-- On a dataset whose rows all have a key and whose keys are pairwise
distinct, `_create_row_lookup` stores every row under its key, observes every
row's columns, and reports no duplicates. -/
theorem create_row_lookup_of_nodup {cfg : Config} {data : List Row}
    (hok : ∀ r ∈ data, ∃ k, rowKeyOf cfg r = some k)
    (hnd : (keyList cfg data).Nodup) :
    create_row_lookup cfg data =
      .ok (data.map (fun r => ((rowKeyOf cfg r).getD "", ⟨generate_row_digest r, r⟩)),
        unionCols data, []) := by
  have hres := createRowLookupAux_nodup cfg data [] ∅ [] ∅ hok (by simpa using hnd)
    (fun r _ k _ => Finset.not_mem_empty k)
  simpa using hres

/-! ### Error behaviour of the indexing loop and of validation -/

theorem createRowLookupAux_error_of_bad (cfg : Config) (data : List Row)
    (hbad : ∃ r ∈ data, ∃ col ∈ cfg.key_columns, hasCol r col = false) :
    ∀ lookup columns duplicates dupKeys, ∃ e,
    createRowLookupAux cfg data lookup columns duplicates dupKeys = .error e := by
  induction data with
  | nil =>
    obtain ⟨r, hr, _⟩ := hbad
    exact absurd hr (by simp)
  | cons row rest ih =>
    intro lookup columns duplicates dupKeys
    rw [createRowLookupAux]
    rcases hg : generate_row_key cfg row with e | rk
    · exact ⟨e, rfl⟩
    · obtain ⟨r, hr, col, hcol, hmiss⟩ := hbad
      rcases List.mem_cons.mp hr with hh | hh
      · subst hh
        have hall := (generate_row_key_ok_iff cfg r).mp ⟨rk, hg⟩
        rw [hall col hcol] at hmiss
        exact absurd hmiss (by simp)
      · have hbad' : ∃ r' ∈ rest, ∃ col' ∈ cfg.key_columns, hasCol r' col' = false :=
          ⟨r, hh, col, hcol, hmiss⟩
        simp only []
        by_cases hdk : rk ∈ dupKeys
        · rw [if_pos hdk]
          exact ih hbad' _ _ _ _
        · rw [if_neg hdk]
          rcases hf : lookupFind lookup rk with _ | entry
          · simp only []
            exact ih hbad' _ _ _ _
          · simp only []
            rcases hfail : cfg.fail_on_duplicate_keys with _ | _
            · simp only [Bool.false_eq_true, if_false]
              exact ih hbad' _ _ _ _
            · refine ⟨CompareError.duplicateKey rk, ?_⟩
              rw [if_pos rfl]

theorem createRowLookupAux_error_missing (cfg : Config)
    (hfail : cfg.fail_on_duplicate_keys = false) (data : List Row) :
    ∀ lookup columns duplicates dupKeys e,
    createRowLookupAux cfg data lookup columns duplicates dupKeys = .error e →
    ∃ col, e = .missingKeyColumn col ∧ col ∈ cfg.key_columns ∧
      ∃ r ∈ data, hasCol r col = false := by
  induction data with
  | nil =>
    intro lookup columns duplicates dupKeys e h
    exact absurd h (by simp [createRowLookupAux])
  | cons row rest ih =>
    intro lookup columns duplicates dupKeys e h
    rw [createRowLookupAux] at h
    rcases hg : generate_row_key cfg row with e' | rk
    · rw [hg] at h
      simp only [Except.error.injEq] at h
      subst h
      obtain ⟨col, h1, h2, h3⟩ := generate_row_key_error_shape hg
      exact ⟨col, h1, h2, row, List.mem_cons_self row rest, by simpa using h3⟩
    · rw [hg] at h
      simp only [] at h
      by_cases hdk : rk ∈ dupKeys
      · rw [if_pos hdk] at h
        obtain ⟨col, h1, h2, r, hr, h3⟩ := ih _ _ _ _ _ h
        exact ⟨col, h1, h2, r, List.mem_cons_of_mem _ hr, h3⟩
      · rw [if_neg hdk] at h
        rcases hf : lookupFind lookup rk with _ | entry
        · rw [hf] at h
          simp only [] at h
          obtain ⟨col, h1, h2, r, hr, h3⟩ := ih _ _ _ _ _ h
          exact ⟨col, h1, h2, r, List.mem_cons_of_mem _ hr, h3⟩
        · rw [hf] at h
          simp only [] at h
          rw [hfail] at h
          simp only [Bool.false_eq_true, if_false] at h
          obtain ⟨col, h1, h2, r, hr, h3⟩ := ih _ _ _ _ _ h
          exact ⟨col, h1, h2, r, List.mem_cons_of_mem _ hr, h3⟩

theorem create_row_lookup_error_missing {cfg : Config} {data : List Row}
    {e : CompareError} (hfail : cfg.fail_on_duplicate_keys = false)
    (h : create_row_lookup cfg data = .error e) :
    ∃ col, e = .missingKeyColumn col ∧ col ∈ cfg.key_columns ∧
      ∃ r ∈ data, hasCol r col = false :=
  createRowLookupAux_error_missing cfg hfail data [] ∅ [] ∅ e h

theorem validateDataset_ok {cfg : Config} {name : String} :
    ∀ {data : List Row}, (∀ r ∈ data, ∀ c ∈ cfg.key_columns, hasCol r c = true) →
    validateDataset cfg name data = .ok ()
  | [], _ => rfl
  | r :: rest, hall => by
    unfold validateDataset
    simp only []
    have hfil : cfg.key_columns.filter (fun c => !hasCol r c) = [] := by
      rw [List.filter_eq_nil_iff]
      intro c hc
      rw [hall r (List.mem_cons_self r rest) c hc]
      simp
    rw [hfil]
    rfl

theorem validate_key_columns_ok {cfg : Config} {old_data new_data : List Row}
    (hall : ∀ r ∈ old_data ++ new_data, ∀ c ∈ cfg.key_columns, hasCol r c = true) :
    validate_key_columns cfg old_data new_data = .ok () := by
  unfold validate_key_columns
  by_cases he : old_data.isEmpty && new_data.isEmpty
  · rw [if_pos he]
  · rw [if_neg he]
    have h1 : validateDataset cfg "first" old_data = .ok () :=
      validateDataset_ok (fun r hr => hall r (List.mem_append_left _ hr))
    have h2 : validateDataset cfg "second" new_data = .ok () :=
      validateDataset_ok (fun r hr => hall r (List.mem_append_right _ hr))
    rw [h1, h2]

theorem validate_key_columns_first_error {cfg : Config} {firstRow : Row}
    (old_rest : List Row) (new_data : List Row)
    (hmissing : cfg.key_columns.filter (fun c => !hasCol firstRow c) ≠ []) :
    validate_key_columns cfg (firstRow :: old_rest) new_data =
      .error (.missingKeyColumns "first"
        (cfg.key_columns.filter (fun c => !hasCol firstRow c))) := by
  unfold validate_key_columns
  rw [if_neg (by simp)]
  unfold validateDataset
  simp only []
  rw [if_neg (by simpa using hmissing)]

theorem validate_key_columns_second_error {cfg : Config} {firstRow : Row}
    (old_data : List Row) (new_rest : List Row)
    (hfirst : validateDataset cfg "first" old_data = .ok ())
    (hmissing : cfg.key_columns.filter (fun c => !hasCol firstRow c) ≠ []) :
    validate_key_columns cfg old_data (firstRow :: new_rest) =
      .error (.missingKeyColumns "second"
        (cfg.key_columns.filter (fun c => !hasCol firstRow c))) := by
  unfold validate_key_columns
  rw [if_neg (by simp)]
  rw [hfirst]
  unfold validateDataset
  simp only []
  rw [if_neg (by simpa using hmissing)]

/-! ### The first duplicate key raised when failing on duplicates -/

theorem createRowLookupAux_firstDup (cfg : Config)
    (hfail : cfg.fail_on_duplicate_keys = true) (data : List Row) :
    ∀ lookup columns duplicates seen,
    (∀ r ∈ data, ∃ k, rowKeyOf cfg r = some k) →
    (∀ k, (lookupFind lookup k).isSome ↔ k ∈ seen) →
    (match firstDuplicateKey cfg data seen with
     | some k => createRowLookupAux cfg data lookup columns duplicates ∅ =
         .error (.duplicateKey k)
     | none => ∃ res,
         createRowLookupAux cfg data lookup columns duplicates ∅ = .ok res) := by
  induction data with
  | nil =>
    intro lookup columns duplicates seen _ _
    exact ⟨(lookup, columns, duplicates), rfl⟩
  | cons row rest ih =>
    intro lookup columns duplicates seen hok hlook
    obtain ⟨rk, hkey⟩ := hok row (List.mem_cons_self row rest)
    have hg : generate_row_key cfg row = .ok rk := rowKeyOf_eq_some_iff.mp hkey
    unfold firstDuplicateKey
    rw [hkey]
    simp only []
    rw [createRowLookupAux, hg]
    simp only []
    rw [if_neg (Finset.not_mem_empty rk)]
    by_cases hmem : rk ∈ seen
    · rw [if_pos hmem]
      have hsome : (lookupFind lookup rk).isSome := (hlook rk).mpr hmem
      rcases hf : lookupFind lookup rk with _ | entry
      · rw [hf] at hsome
        exact absurd hsome (by simp)
      · simp only []
        rw [hfail]
        rw [if_pos rfl]
    · rw [if_neg hmem]
      have hnone : lookupFind lookup rk = none := by
        rcases hf : lookupFind lookup rk with _ | entry
        · rfl
        · exact absurd ((hlook rk).mp (by rw [hf]; simp)) hmem
      rw [hnone]
      simp only []
      have hlook2 : ∀ k,
          (lookupFind (lookupInsert lookup rk ⟨generate_row_digest row, row⟩) k).isSome ↔
            k ∈ insert rk seen := by
        intro k
        rw [Finset.mem_insert]
        by_cases hkr : k = rk
        · subst hkr
          rw [lookupFind_insert_self _ hnone]
          simp
        · rw [lookupFind_insert_ne _ hkr]
          rw [hlook k]
          simp [hkr]
      exact ih _ _ _ _ (fun r hr => hok r (List.mem_cons_of_mem row hr)) hlook2

theorem firstDuplicateKey_none_iff (cfg : Config) (data : List Row) :
    ∀ seen, (∀ r ∈ data, ∃ k, rowKeyOf cfg r = some k) →
    (firstDuplicateKey cfg data seen = none ↔
      (keyList cfg data).Nodup ∧ ∀ k ∈ keyList cfg data, k ∉ seen) := by
  induction data with
  | nil =>
    intro seen _
    simp [firstDuplicateKey, keyList]
  | cons row rest ih =>
    intro seen hok
    obtain ⟨rk, hkey⟩ := hok row (List.mem_cons_self row rest)
    unfold firstDuplicateKey
    rw [hkey]
    simp only []
    rw [keyList_cons_of_key hkey]
    by_cases hmem : rk ∈ seen
    · rw [if_pos hmem]
      simp only [reduceCtorEq, false_iff, not_and, not_forall]
      intro _
      exact ⟨rk, List.mem_cons_self rk _, by simpa using hmem⟩
    · rw [if_neg hmem]
      rw [ih (insert rk seen) (fun r hr => hok r (List.mem_cons_of_mem row hr))]
      rw [List.nodup_cons]
      constructor
      · intro ⟨h1, h2⟩
        refine ⟨⟨?_, h1⟩, ?_⟩
        · intro hmemk
          have := h2 rk hmemk
          simp at this
        · intro k hk
          rcases List.mem_cons.mp hk with hh | hh
          · subst hh
            exact hmem
          · have := h2 k hh
            rw [Finset.mem_insert] at this
            push_neg at this
            exact this.2
      · intro ⟨⟨h1, h2⟩, h3⟩
        refine ⟨h2, ?_⟩
        intro k hk
        rw [Finset.mem_insert]
        push_neg
        constructor
        · intro hkr
          subst hkr
          exact h1 hk
        · exact h3 k (List.mem_cons_of_mem _ hk)

/-! ### Unfolding the comparison pipeline -/

theorem compare_classified_eq {cfg : Config} {old_data new_data : List Row}
    {oldRows newRows : Lookup} {oldCols newCols : Finset String}
    {oldDups newDups : List Row}
    (hv : validate_key_columns cfg old_data new_data = .ok ())
    (ho : create_row_lookup cfg old_data = .ok (oldRows, oldCols, oldDups))
    (hn : create_row_lookup cfg new_data = .ok (newRows, newCols, newDups)) :
    compare_classified cfg old_data new_data =
      if oldRows.isEmpty && newRows.isEmpty then .ok ([], oldDups ++ newDups)
      else .ok ((finsetSortLe (lookupKeys oldRows ∪ lookupKeys newRows)).filterMap
          (processRowKey (finsetSortLe ((oldCols ∪ newCols) \ cfg.key_columns.toFinset))
            oldRows newRows),
        oldDups ++ newDups) := by
  unfold compare_classified
  rw [hv, ho, hn]

theorem compare_classified_ok_inv {cfg : Config} {old_data new_data : List Row}
    {results : List ComparisonResult} {duplicates : List Row}
    (h : compare_classified cfg old_data new_data = .ok (results, duplicates)) :
    validate_key_columns cfg old_data new_data = .ok () ∧
    ∃ oldRows oldCols oldDups newRows newCols newDups,
      create_row_lookup cfg old_data = .ok (oldRows, oldCols, oldDups) ∧
      create_row_lookup cfg new_data = .ok (newRows, newCols, newDups) ∧
      duplicates = oldDups ++ newDups := by
  unfold compare_classified at h
  rcases hv : validate_key_columns cfg old_data new_data with e | u
  · rw [hv] at h
    exact absurd h (by simp)
  rcases u
  rw [hv] at h
  simp only [] at h
  rcases ho : create_row_lookup cfg old_data with e | trip
  · rw [ho] at h
    exact absurd h (by simp)
  obtain ⟨oldRows, oldCols, oldDups⟩ := trip
  rw [ho] at h
  simp only [] at h
  rcases hn : create_row_lookup cfg new_data with e | trip2
  · rw [hn] at h
    exact absurd h (by simp)
  obtain ⟨newRows, newCols, newDups⟩ := trip2
  rw [hn] at h
  simp only [] at h
  refine ⟨rfl, oldRows, oldCols, oldDups, newRows, newCols, newDups, rfl, rfl, ?_⟩
  by_cases he : oldRows.isEmpty && newRows.isEmpty
  · rw [if_pos he] at h
    simp only [Except.ok.injEq, Prod.mk.injEq] at h
    exact h.2.symm
  · rw [if_neg he] at h
    simp only [Except.ok.injEq, Prod.mk.injEq] at h
    exact h.2.symm

theorem processRowKey_row_key {nonKeyColumns : List String} {oldRows newRows : Lookup}
    {k : String} {r : ComparisonResult}
    (h : processRowKey nonKeyColumns oldRows newRows k = some r) : r.row_key = k := by
  unfold processRowKey at h
  rcases hfo : lookupFind oldRows k with _ | eo <;>
    rcases hfn : lookupFind newRows k with _ | en <;>
    rw [hfo, hfn] at h <;> simp only [] at h
  · exact absurd h (by simp)
  · simp only [Option.some.injEq] at h
    rw [← h]
  · simp only [Option.some.injEq] at h
    rw [← h]
  · by_cases hd : eo.row_digest = en.row_digest
    · rw [if_pos hd] at h
      exact absurd h (by simp)
    · rw [if_neg hd] at h
      by_cases hc : (nonKeyColumns.filter
          (fun c => getCol eo.row_data c != getCol en.row_data c)).isEmpty
      · rw [if_pos hc] at h
        exact absurd h (by simp)
      · rw [if_neg hc] at h
        simp only [Option.some.injEq] at h
        rw [← h]

theorem mem_filterMap_processRowKey {nonKeyColumns : List String}
    {oldRows newRows : Lookup} {keys : List String} {r : ComparisonResult}
    (h : r ∈ keys.filterMap (processRowKey nonKeyColumns oldRows newRows)) :
    r.row_key ∈ keys := by
  rw [List.mem_filterMap] at h
  obtain ⟨k, hk, hr⟩ := h
  rw [processRowKey_row_key hr]
  exact hk

theorem filterMap_processRowKey_filter {nonKeyColumns : List String}
    {oldRows newRows : Lookup} {keys : List String} (hnd : keys.Nodup)
    {k : String} (hk : k ∈ keys) :
    (keys.filterMap (processRowKey nonKeyColumns oldRows newRows)).filter
        (fun r => r.row_key == k) =
      (processRowKey nonKeyColumns oldRows newRows k).toList := by
  induction keys with
  | nil => exact absurd hk (by simp)
  | cons a rest ih =>
    rw [List.nodup_cons] at hnd
    rcases List.mem_cons.mp hk with hh | hh
    · subst hh
      have hrest : (rest.filterMap (processRowKey nonKeyColumns oldRows newRows)).filter
          (fun r => r.row_key == k) = [] := by
        rw [List.filter_eq_nil_iff]
        intro r hr hbeq
        rw [beq_iff_eq] at hbeq
        exact hnd.1 (hbeq ▸ mem_filterMap_processRowKey hr)
      rcases hp : processRowKey nonKeyColumns oldRows newRows k with _ | r
      · rw [List.filterMap_cons_none hp]
        simpa using hrest
      · rw [List.filterMap_cons_some hp]
        simp only [Option.toList_some]
        rw [List.filter_cons]
        rw [if_pos (by rw [beq_iff_eq]; exact processRowKey_row_key hp)]
        rw [hrest]
    · have hne : a ≠ k := fun hh2 => hnd.1 (hh2 ▸ hh)
      rcases hp : processRowKey nonKeyColumns oldRows newRows a with _ | r
      · rw [List.filterMap_cons_none hp]
        exact ih hnd.2 hh
      · rw [List.filterMap_cons_some hp]
        rw [List.filter_cons]
        rw [if_neg (by rw [beq_iff_eq, processRowKey_row_key hp]; exact hne)]
        exact ih hnd.2 hh

theorem lookupFind_some_mem_keys {l : Lookup} {k : String} {e : LookupEntry}
    (h : lookupFind l k = some e) : k ∈ lookupKeys l := by
  rw [← lookupFind_isSome_iff, h]
  rfl

theorem lookup_not_isEmpty_of_find {l : Lookup} {k : String} {e : LookupEntry}
    (h : lookupFind l k = some e) : l.isEmpty = false := by
  rcases l with _ | ⟨p, rest⟩
  · exact absurd h (by simp [lookupFind])
  · rfl

/-! ### Properties of the sorted set listing -/

theorem mem_finsetSortLe {s : Finset String} {a : String} :
    a ∈ finsetSortLe s ↔ a ∈ s := by
  rcases s with ⟨m, hnd⟩
  revert hnd
  refine Quotient.inductionOn m (fun l hnd => ?_)
  show a ∈ l.insertionSort (fun a b => strLe a b = true) ↔ _
  rw [(List.perm_insertionSort (fun a b => strLe a b = true) l).mem_iff]
  simp [Finset.mem_mk]

theorem finsetSortLe_nodup (s : Finset String) : (finsetSortLe s).Nodup := by
  rcases s with ⟨m, hnd⟩
  revert hnd
  refine Quotient.inductionOn m (fun l hnd => ?_)
  show (l.insertionSort (fun a b => strLe a b = true)).Nodup
  exact ((List.perm_insertionSort (fun a b => strLe a b = true) l).nodup_iff).mpr hnd

theorem finsetSortLe_sorted (s : Finset String) :
    (finsetSortLe s).Sorted (fun a b => strLe a b = true) := by
  rcases s with ⟨m, hnd⟩
  revert hnd
  refine Quotient.inductionOn m (fun l hnd => ?_)
  exact List.sorted_insertionSort (fun a b => strLe a b = true) l

theorem finsetSortLe_pairwise_strLt (s : Finset String) :
    (finsetSortLe s).Pairwise (fun a b => strLt a b = true) := by
  have h1 : (finsetSortLe s).Pairwise (fun a b => strLe a b = true) := finsetSortLe_sorted s
  have h2 : (finsetSortLe s).Pairwise (fun a b => a ≠ b) := finsetSortLe_nodup s
  exact (h1.and h2).imp (fun hab => strLt_iff.mpr hab)

theorem finsetSortLe_empty : finsetSortLe (∅ : Finset String) = [] := rfl

theorem finsetSortLe_toFinset (s : Finset String) : (finsetSortLe s).toFinset = s := by
  ext a
  rw [List.mem_toFinset, mem_finsetSortLe]

theorem map_fst_map_pair (cols : List String) (f : String → String) :
    (cols.map (fun c => (c, f c))).map Prod.fst = cols := by
  rw [List.map_map]
  exact List.map_id'' (fun c => rfl) cols

theorem processRowKey_values_shape {nonKeyColumns : List String}
    {oldRows newRows : Lookup} {k : String} {r : ComparisonResult}
    (h : processRowKey nonKeyColumns oldRows newRows k = some r) :
    r.old_values.map Prod.fst = nonKeyColumns ∧
      r.new_values.map Prod.fst = nonKeyColumns := by
  unfold processRowKey at h
  rcases hfo : lookupFind oldRows k with _ | eo <;>
    rcases hfn : lookupFind newRows k with _ | en <;>
    rw [hfo, hfn] at h <;> simp only [] at h
  · exact absurd h (by simp)
  · simp only [Option.some.injEq] at h
    rw [← h]
    exact ⟨map_fst_map_pair _ _, map_fst_map_pair _ _⟩
  · simp only [Option.some.injEq] at h
    rw [← h]
    exact ⟨map_fst_map_pair _ _, map_fst_map_pair _ _⟩
  · by_cases hd : eo.row_digest = en.row_digest
    · rw [if_pos hd] at h
      exact absurd h (by simp)
    · rw [if_neg hd] at h
      by_cases hc : (nonKeyColumns.filter
          (fun c => getCol eo.row_data c != getCol en.row_data c)).isEmpty
      · rw [if_pos hc] at h
        exact absurd h (by simp)
      · rw [if_neg hc] at h
        simp only [Option.some.injEq] at h
        rw [← h]
        exact ⟨map_fst_map_pair _ _, map_fst_map_pair _ _⟩

theorem format_compared_row_of_shape {r : ComparisonResult} {s : Finset String}
    (ho : r.old_values.map Prod.fst = finsetSortLe s)
    (hn : r.new_values.map Prod.fst = finsetSortLe s) :
    format_compared_row r =
      [("Row Key", r.row_key), ("Status", r.status.value),
       ("Changed Columns", String.intercalate ", " r.changed_columns)] ++
      (finsetSortLe s).flatMap (fun c =>
        [(c ++ " (Old)", getCol r.old_values c), (c ++ " (New)", getCol r.new_values c)]) := by
  unfold format_compared_row
  rw [ho, hn, finsetSortLe_toFinset, Finset.union_self]

/-- The results list of a successful comparison: the per-key classification
mapped over the sorted union of the two lookups' key sets. -/
theorem compare_results_eq {cfg : Config} {old_data new_data : List Row}
    {results : List ComparisonResult} {duplicates : List Row}
    {oldRows newRows : Lookup} {oldCols newCols : Finset String}
    {oldDups newDups : List Row}
    (ho : create_row_lookup cfg old_data = .ok (oldRows, oldCols, oldDups))
    (hn : create_row_lookup cfg new_data = .ok (newRows, newCols, newDups))
    (hcmp : compare_classified cfg old_data new_data = .ok (results, duplicates)) :
    results = (finsetSortLe (lookupKeys oldRows ∪ lookupKeys newRows)).filterMap
        (processRowKey (finsetSortLe ((oldCols ∪ newCols) \ cfg.key_columns.toFinset))
          oldRows newRows) ∧
      duplicates = oldDups ++ newDups := by
  obtain ⟨hv, oldRows', oldCols', oldDups', newRows', newCols', newDups', ho', hn', _⟩ :=
    compare_classified_ok_inv hcmp
  rw [ho] at ho'
  rw [hn] at hn'
  simp only [Except.ok.injEq, Prod.mk.injEq] at ho' hn'
  obtain ⟨h1, h2, h3⟩ := ho'
  obtain ⟨h4, h5, h6⟩ := hn'
  subst h1; subst h2; subst h3; subst h4; subst h5; subst h6
  rw [compare_classified_eq hv ho hn] at hcmp
  by_cases he : oldRows.isEmpty && newRows.isEmpty
  · rw [if_pos he] at hcmp
    simp only [Except.ok.injEq, Prod.mk.injEq] at hcmp
    obtain ⟨hres, hdup⟩ := hcmp
    rw [Bool.and_eq_true, List.isEmpty_iff, List.isEmpty_iff] at he
    obtain ⟨he1, he2⟩ := he
    subst he1
    subst he2
    have hkeys : lookupKeys ([] : Lookup) ∪ lookupKeys ([] : Lookup) = (∅ : Finset String) := rfl
    rw [hkeys, finsetSortLe_empty]
    exact ⟨hres.symm, hdup.symm⟩
  · rw [if_neg he] at hcmp
    simp only [Except.ok.injEq, Prod.mk.injEq] at hcmp
    exact ⟨hcmp.1.symm, hcmp.2.symm⟩

/-! ### Claims -/

/-- C2, counterexample: the code adds every non-key column to the old/new
value maps of a Changed result, even when the two text values match, and the
formatted row then carries an `(Old)`/`(New)` pair for the matching column.
Here column `B` matches (`"same"` on both sides) yet appears in `old_values`
and in the formatted output, so matching columns are neither left out of the
maps nor omitted from the row. -/
theorem C2_counterexample :
    compare_classified ⟨["ID"], true⟩ [[("ID","1"),("A","x"),("B","same")]]
        [[("ID","1"),("A","y"),("B","same")]] =
      .ok ([⟨"1", .changed, ["A"], [("A","x"),("B","same")], [("A","y"),("B","same")]⟩], []) ∧
    getCol [("ID","1"),("A","x"),("B","same")] "B" =
      getCol [("ID","1"),("A","y"),("B","same")] "B" ∧
    ("B", "same") ∈ ([("A","x"),("B","same")] : List (String × String)) ∧
    ("B (Old)", "same") ∈ format_compared_row
      ⟨"1", .changed, ["A"], [("A","x"),("B","same")], [("A","y"),("B","same")]⟩ :=
  ⟨by decide, by decide, by decide, by decide⟩

/-- C2 (amended): in every result (Changed ones included), every sorted
non-key column — matching or not — is added to the OldValues and NewValues
maps, and the formatted output row contains an `(Old)`/`(New)` field pair for
every column of OldValues ∪ NewValues, i.e. for every non-key column;
matching (unchanged) columns are therefore included, not omitted. -/
theorem C2_all_non_key_columns_recorded (cfg : Config) (old_data new_data : List Row)
    (results : List ComparisonResult) (duplicates : List Row)
    (oldRows : Lookup) (oldCols : Finset String) (oldDups : List Row)
    (newRows : Lookup) (newCols : Finset String) (newDups : List Row)
    (ho : create_row_lookup cfg old_data = .ok (oldRows, oldCols, oldDups))
    (hn : create_row_lookup cfg new_data = .ok (newRows, newCols, newDups))
    (hcmp : compare_classified cfg old_data new_data = .ok (results, duplicates))
    (r : ComparisonResult) (hr : r ∈ results) :
    r.old_values.map Prod.fst =
        finsetSortLe ((oldCols ∪ newCols) \ cfg.key_columns.toFinset) ∧
    r.new_values.map Prod.fst =
        finsetSortLe ((oldCols ∪ newCols) \ cfg.key_columns.toFinset) ∧
    format_compared_row r =
      [("Row Key", r.row_key), ("Status", r.status.value),
       ("Changed Columns", String.intercalate ", " r.changed_columns)] ++
      (finsetSortLe ((oldCols ∪ newCols) \ cfg.key_columns.toFinset)).flatMap (fun c =>
        [(c ++ " (Old)", getCol r.old_values c), (c ++ " (New)", getCol r.new_values c)]) := by
  obtain ⟨hres, _⟩ := compare_results_eq ho hn hcmp
  rw [hres] at hr
  rw [List.mem_filterMap] at hr
  obtain ⟨k, _, hpk⟩ := hr
  obtain ⟨h1, h2⟩ := processRowKey_values_shape hpk
  exact ⟨h1, h2, format_compared_row_of_shape h1 h2⟩

/-- C2, witness for the amended claim at a concrete input. -/
theorem C2_witness :
    compare_classified ⟨["ID"], true⟩ [[("ID","1"),("A","x"),("B","same")]]
        [[("ID","1"),("A","y"),("B","same")]] =
      .ok ([⟨"1", .changed, ["A"], [("A","x"),("B","same")], [("A","y"),("B","same")]⟩], []) ∧
    (⟨"1", .changed, ["A"], [("A","x"),("B","same")],
        [("A","y"),("B","same")]⟩ : ComparisonResult).old_values.map Prod.fst = ["A", "B"] ∧
    format_compared_row
        (⟨"1", .changed, ["A"], [("A","x"),("B","same")], [("A","y"),("B","same")]⟩ :
          ComparisonResult) =
      [("Row Key","1"),("Status","Changed"),("Changed Columns","A"),
       ("A (Old)","x"),("A (New)","y"),("B (Old)","same"),("B (New)","same")] := by
  have h := C2_all_non_key_columns_recorded ⟨["ID"], true⟩
    [[("ID","1"),("A","x"),("B","same")]] [[("ID","1"),("A","y"),("B","same")]]
    [⟨"1", .changed, ["A"], [("A","x"),("B","same")], [("A","y"),("B","same")]⟩] []
    [("1", ⟨[("A","x"),("B","same"),("ID","1")], [("ID","1"),("A","x"),("B","same")]⟩)]
    {"ID","A","B"} []
    [("1", ⟨[("A","y"),("B","same"),("ID","1")], [("ID","1"),("A","y"),("B","same")]⟩)]
    {"ID","A","B"} []
    (by decide) (by decide) (by decide)
    ⟨"1", .changed, ["A"], [("A","x"),("B","same")], [("A","y"),("B","same")]⟩ (by decide)
  exact ⟨by decide, h.1.trans (by decide), h.2.2.trans (by decide)⟩

/-- C3, counterexample: with two interleaved duplicated keys the duplicates
output groups the rows of each key at the position where the key's second
occurrence was met, so it is not in encounter order within the dataset: the
code returns rows in the order a, c, b, d while the encounter order of the
rows that ever shared a duplicated key (the filter of the input) is
a, b, c, d. -/
theorem C3_counterexample :
    compare_classified ⟨["ID"], false⟩
        [[("ID","1"),("N","a")],[("ID","2"),("N","b")],[("ID","1"),("N","c")],[("ID","2"),("N","d")]]
        [] =
      .ok ([], [[("ID","1"),("N","a")],[("ID","1"),("N","c")],
        [("ID","2"),("N","b")],[("ID","2"),("N","d")]]) ∧
    ([[("ID","1"),("N","a")],[("ID","1"),("N","c")],
        [("ID","2"),("N","b")],[("ID","2"),("N","d")]] : List Row) ≠
      [[("ID","1"),("N","a")],[("ID","2"),("N","b")],[("ID","1"),("N","c")],[("ID","2"),("N","d")]].filter
        (isDuplicatedRow ⟨["ID"], false⟩
          [[("ID","1"),("N","a")],[("ID","2"),("N","b")],[("ID","1"),("N","c")],[("ID","2"),("N","d")]]) :=
  ⟨by decide, by decide⟩

/-- C3 (amended): when `fail_on_duplicate_keys` is false, the duplicates
output is the old-dataset duplicates followed by the new-dataset duplicates;
per dataset the duplicates are, up to order, exactly the rows whose key
occurs at least twice (each input row occurrence appearing exactly once,
including the original first-seen row — though not necessarily in encounter
order across distinct keys); and once a key is duplicated, no row with that
key remains in or is later inserted into the lookup. -/
theorem C3_duplicates_conservation (cfg : Config) (old_data new_data : List Row)
    (results : List ComparisonResult) (duplicates : List Row)
    (oldRows : Lookup) (oldCols : Finset String) (oldDups : List Row)
    (newRows : Lookup) (newCols : Finset String) (newDups : List Row)
    (hfail : cfg.fail_on_duplicate_keys = false)
    (ho : create_row_lookup cfg old_data = .ok (oldRows, oldCols, oldDups))
    (hn : create_row_lookup cfg new_data = .ok (newRows, newCols, newDups))
    (hcmp : compare_classified cfg old_data new_data = .ok (results, duplicates)) :
    duplicates = oldDups ++ newDups ∧
    oldDups.Perm (old_data.filter (isDuplicatedRow cfg old_data)) ∧
    newDups.Perm (new_data.filter (isDuplicatedRow cfg new_data)) ∧
    (∀ k, 2 ≤ countKey cfg old_data k → lookupFind oldRows k = none) ∧
    (∀ k, 2 ≤ countKey cfg new_data k → lookupFind newRows k = none) := by
  obtain ⟨_, hdup⟩ := compare_results_eq ho hn hcmp
  refine ⟨hdup, create_row_lookup_dups ho, create_row_lookup_dups hn, ?_, ?_⟩
  · intro k hk
    rw [create_row_lookup_find ho k]
    rw [if_neg (by omega)]
  · intro k hk
    rw [create_row_lookup_find hn k]
    rw [if_neg (by omega)]

/-- C3, witness for the amended claim at a concrete input. -/
theorem C3_witness :
    ([[("ID","1"),("N","a")],[("ID","1"),("N","c")],
        [("ID","2"),("N","b")],[("ID","2"),("N","d")]] : List Row) =
      [[("ID","1"),("N","a")],[("ID","1"),("N","c")],
        [("ID","2"),("N","b")],[("ID","2"),("N","d")]] ++ ([] : List Row) ∧
    ([[("ID","1"),("N","a")],[("ID","1"),("N","c")],
        [("ID","2"),("N","b")],[("ID","2"),("N","d")]] : List Row).Perm
      ([[("ID","1"),("N","a")],[("ID","2"),("N","b")],[("ID","1"),("N","c")],[("ID","2"),("N","d")]].filter
        (isDuplicatedRow ⟨["ID"], false⟩
          [[("ID","1"),("N","a")],[("ID","2"),("N","b")],[("ID","1"),("N","c")],[("ID","2"),("N","d")]])) ∧
    lookupFind [] "1" = none := by
  have h := C3_duplicates_conservation ⟨["ID"], false⟩
    [[("ID","1"),("N","a")],[("ID","2"),("N","b")],[("ID","1"),("N","c")],[("ID","2"),("N","d")]]
    [] [] [[("ID","1"),("N","a")],[("ID","1"),("N","c")],
      [("ID","2"),("N","b")],[("ID","2"),("N","d")]]
    [] {"ID","N"} [[("ID","1"),("N","a")],[("ID","1"),("N","c")],
      [("ID","2"),("N","b")],[("ID","2"),("N","d")]]
    [] ∅ []
    (by decide) (by decide) (by decide) (by decide)
  exact ⟨h.1, h.2.1, h.2.2.2.1 "1" (by decide)⟩

/-- C9, counterexample: the observed-columns set keeps the columns of the
first-seen row of a duplicated key even after that row has been moved to the
duplicates list, so it is not the column set of the non-duplicate rows.  Here
every row is a duplicate (the non-duplicate rows are empty, with empty column
set), yet the returned set is `{ID, Extra}`, the first row's columns. -/
theorem C9_counterexample :
    create_row_lookup ⟨["ID"], false⟩ [[("ID","1"),("Extra","x")],[("ID","1"),("Other","y")]] =
      .ok ([], ({"ID","Extra"} : Finset String),
        [[("ID","1"),("Extra","x")],[("ID","1"),("Other","y")]]) ∧
    ([[("ID","1"),("Extra","x")],[("ID","1"),("Other","y")]] : List Row).filter
        (fun r => !isDuplicatedRow ⟨["ID"], false⟩
          [[("ID","1"),("Extra","x")],[("ID","1"),("Other","y")]] r) = [] ∧
    ({"ID","Extra"} : Finset String) ≠ (∅ : Finset String) :=
  ⟨by decide, by decide, by decide⟩

/-- C9 (amended): the observed-columns set returned by the per-dataset
indexing step is the union of the column names of the first row of each
distinct key (rows skipped as already-known duplicates, and the later rows of
a collision, contribute nothing; the popped first occurrence's columns
remain). -/
theorem C9_observed_columns_first_occurrences (cfg : Config) (data : List Row)
    (l : Lookup) (c : Finset String) (d : List Row)
    (h : create_row_lookup cfg data = .ok (l, c, d)) :
    c = unionCols (firstOccurrences cfg data ∅) :=
  create_row_lookup_cols h

/-- C9, witness for the amended claim at a concrete input. -/
theorem C9_witness :
    ({"ID","Extra"} : Finset String) =
      unionCols (firstOccurrences ⟨["ID"], false⟩
        [[("ID","1"),("Extra","x")],[("ID","1"),("Other","y")]] ∅) := by
  have h := C9_observed_columns_first_occurrences ⟨["ID"], false⟩
    [[("ID","1"),("Extra","x")],[("ID","1"),("Other","y")]]
    [] ({"ID","Extra"} : Finset String)
    [[("ID","1"),("Extra","x")],[("ID","1"),("Other","y")]] (by decide)
  exact h

/-- An error value of the missing-key-column family (either raise site). -/
def isMissingKeyError : CompareError → Bool
  | .missingKeyColumns _ _ => true
  | .missingKeyColumn _ => true
  | .duplicateKey _ => false

theorem validateDataset_error_shape {cfg : Config} {name : String} {data : List Row}
    {e : CompareError} (h : validateDataset cfg name data = .error e) :
    ∃ missing, e = .missingKeyColumns name missing := by
  rcases data with _ | ⟨firstRow, rest⟩
  · exact absurd h (by simp [validateDataset])
  · unfold validateDataset at h
    simp only [] at h
    by_cases hm : (cfg.key_columns.filter (fun c => !hasCol firstRow c)).isEmpty
    · rw [if_pos hm] at h
      exact absurd h (by simp)
    · rw [if_neg hm] at h
      simp only [Except.error.injEq] at h
      exact ⟨_, h.symm⟩

theorem validate_error_shape {cfg : Config} {old_data new_data : List Row}
    {e : CompareError} (h : validate_key_columns cfg old_data new_data = .error e) :
    ∃ name missing, e = .missingKeyColumns name missing := by
  unfold validate_key_columns at h
  by_cases he : old_data.isEmpty && new_data.isEmpty
  · rw [if_pos he] at h
    exact absurd h (by simp)
  · rw [if_neg he] at h
    rcases hv : validateDataset cfg "first" old_data with e' | u
    · rw [hv] at h
      simp only [Except.error.injEq] at h
      obtain ⟨m, hm⟩ := validateDataset_error_shape hv
      exact ⟨"first", m, h ▸ hm⟩
    · rcases u
      rw [hv] at h
      simp only [] at h
      obtain ⟨m, hm⟩ := validateDataset_error_shape h
      exact ⟨"second", m, hm⟩

theorem validateDataset_error_eq {cfg : Config} {name : String} {firstRow : Row}
    {rest : List Row} {e : CompareError}
    (h : validateDataset cfg name (firstRow :: rest) = .error e) :
    e = .missingKeyColumns name (cfg.key_columns.filter (fun c => !hasCol firstRow c)) ∧
    cfg.key_columns.filter (fun c => !hasCol firstRow c) ≠ [] := by
  unfold validateDataset at h
  simp only [] at h
  by_cases hm : (cfg.key_columns.filter (fun c => !hasCol firstRow c)).isEmpty
  · rw [if_pos hm] at h
    exact absurd h (by simp)
  · rw [if_neg hm] at h
    simp only [Except.error.injEq] at h
    refine ⟨h.symm, ?_⟩
    intro hnil
    rw [hnil] at hm
    exact hm rfl

theorem validate_key_columns_error_eq {cfg : Config} {old_data new_data : List Row}
    {e : CompareError} (h : validate_key_columns cfg old_data new_data = .error e) :
    ∃ name missing, e = .missingKeyColumns name missing ∧ missing ≠ [] ∧
      ∀ c ∈ missing, c ∈ cfg.key_columns ∧
        ∃ r ∈ old_data ++ new_data, hasCol r c = false := by
  unfold validate_key_columns at h
  by_cases he : old_data.isEmpty && new_data.isEmpty
  · rw [if_pos he] at h
    exact absurd h (by simp)
  · rw [if_neg he] at h
    rcases hv : validateDataset cfg "first" old_data with e' | u
    · rw [hv] at h
      simp only [Except.error.injEq] at h
      subst h
      rcases old_data with _ | ⟨firstRow, rest⟩
      · exact absurd hv (by simp [validateDataset])
      · obtain ⟨h1, h2⟩ := validateDataset_error_eq hv
        refine ⟨"first", _, h1, h2, ?_⟩
        intro c hc
        have hcf := List.mem_filter.mp hc
        refine ⟨hcf.1, firstRow, List.mem_append_left _ (List.mem_cons_self _ _), ?_⟩
        simpa using hcf.2
    · rcases u
      rw [hv] at h
      simp only [] at h
      rcases new_data with _ | ⟨firstRow, rest⟩
      · exact absurd h (by simp [validateDataset])
      · obtain ⟨h1, h2⟩ := validateDataset_error_eq h
        refine ⟨"second", _, h1, h2, ?_⟩
        intro c hc
        have hcf := List.mem_filter.mp hc
        refine ⟨hcf.1, firstRow, List.mem_append_right _ (List.mem_cons_self _ _), ?_⟩
        simpa using hcf.2

theorem compare_classified_validate_error {cfg : Config} {old_data new_data : List Row}
    {e : CompareError} (hv : validate_key_columns cfg old_data new_data = .error e) :
    compare_classified cfg old_data new_data = .error e := by
  unfold compare_classified
  rw [hv]

theorem compare_classified_old_error {cfg : Config} {old_data new_data : List Row}
    {e : CompareError} (hv : validate_key_columns cfg old_data new_data = .ok ())
    (ho : create_row_lookup cfg old_data = .error e) :
    compare_classified cfg old_data new_data = .error e := by
  unfold compare_classified
  rw [hv]
  simp only []
  rw [ho]

theorem compare_classified_new_error {cfg : Config} {old_data new_data : List Row}
    {oldRows : Lookup} {oldCols : Finset String} {oldDups : List Row} {e : CompareError}
    (hv : validate_key_columns cfg old_data new_data = .ok ())
    (ho : create_row_lookup cfg old_data = .ok (oldRows, oldCols, oldDups))
    (hn : create_row_lookup cfg new_data = .error e) :
    compare_classified cfg old_data new_data = .error e := by
  unfold compare_classified
  rw [hv]
  simp only []
  rw [ho]
  simp only []
  rw [hn]

theorem compare_classified_ok_not_error {cfg : Config} {old_data new_data : List Row}
    {oldRows newRows : Lookup} {oldCols newCols : Finset String}
    {oldDups newDups : List Row}
    (hv : validate_key_columns cfg old_data new_data = .ok ())
    (ho : create_row_lookup cfg old_data = .ok (oldRows, oldCols, oldDups))
    (hn : create_row_lookup cfg new_data = .ok (newRows, newCols, newDups))
    (e : CompareError) : compare_classified cfg old_data new_data ≠ .error e := by
  rw [compare_classified_eq hv ho hn]
  by_cases he : oldRows.isEmpty && newRows.isEmpty
  · rw [if_pos he]
    simp
  · rw [if_neg he]
    simp

theorem compare_error_classify {cfg : Config} {old_data new_data : List Row}
    {e : CompareError} (hfail : cfg.fail_on_duplicate_keys = false)
    (h : compare_classified cfg old_data new_data = .error e) :
    isMissingKeyError e = true := by
  rcases hv : validate_key_columns cfg old_data new_data with e' | u
  · rw [compare_classified_validate_error hv] at h
    simp only [Except.error.injEq] at h
    obtain ⟨name, m, hm⟩ := validate_error_shape hv
    rw [← h, hm]
    rfl
  rcases u
  rcases ho : create_row_lookup cfg old_data with e' | trip
  · rw [compare_classified_old_error hv ho] at h
    simp only [Except.error.injEq] at h
    obtain ⟨col, hc, _⟩ := createRowLookupAux_error_missing cfg hfail old_data _ _ _ _ _ ho
    rw [← h, hc]
    rfl
  obtain ⟨oldRows, oldCols, oldDups⟩ := trip
  rcases hn : create_row_lookup cfg new_data with e' | trip2
  · rw [compare_classified_new_error hv ho hn] at h
    simp only [Except.error.injEq] at h
    obtain ⟨col, hc, _⟩ := createRowLookupAux_error_missing cfg hfail new_data _ _ _ _ _ hn
    rw [← h, hc]
    rfl
  obtain ⟨newRows, newCols, newDups⟩ := trip2
  exact absurd h (compare_classified_ok_not_error hv ho hn e)

/-- C4, counterexample: with `fail_on_duplicate_keys = true` and a dataset
that does contain two rows with the same row key ("1", rows 0 and 2), the
call raises a missing-key-column error — row 1 lacks the key column and is
reached before the duplicate — so the claimed "if and only if" for the
duplicate-key error fails. -/
theorem C4_counterexample :
    compare_classified ⟨["ID"], true⟩ [[("ID","1")],[("X","2")],[("ID","1")]] [] =
      .error (.missingKeyColumn "ID") ∧
    (⟨["ID"], true⟩ : Config).fail_on_duplicate_keys = true ∧
    generate_row_key ⟨["ID"], true⟩ [("ID","1")] = .ok "1" :=
  ⟨by decide, by decide, by decide⟩

theorem compare_duplicate_error_iff_of_fail (cfg : Config) (old_data new_data : List Row)
    (hfail : cfg.fail_on_duplicate_keys = true)
    (hall : ∀ r ∈ old_data ++ new_data, ∀ c ∈ cfg.key_columns, hasCol r c = true) :
    ((∃ k, compare_classified cfg old_data new_data = .error (.duplicateKey k)) ↔
      (¬ (keyList cfg old_data).Nodup ∨ ¬ (keyList cfg new_data).Nodup)) ∧
    (∀ k, compare_classified cfg old_data new_data = .error (.duplicateKey k) →
      firstDuplicateKey cfg old_data ∅ = some k ∨
        (firstDuplicateKey cfg old_data ∅ = none ∧
          firstDuplicateKey cfg new_data ∅ = some k)) := by
  have hok_old : ∀ r ∈ old_data, ∃ k, rowKeyOf cfg r = some k := by
    intro r hr
    obtain ⟨k, hk⟩ := (generate_row_key_ok_iff cfg r).mpr
      (fun c hc => hall r (List.mem_append_left _ hr) c hc)
    exact ⟨k, rowKeyOf_eq_some_iff.mpr hk⟩
  have hok_new : ∀ r ∈ new_data, ∃ k, rowKeyOf cfg r = some k := by
    intro r hr
    obtain ⟨k, hk⟩ := (generate_row_key_ok_iff cfg r).mpr
      (fun c hc => hall r (List.mem_append_right _ hr) c hc)
    exact ⟨k, rowKeyOf_eq_some_iff.mpr hk⟩
  have hv : validate_key_columns cfg old_data new_data = .ok () :=
    validate_key_columns_ok hall
  have hinit : ∀ k : String, (lookupFind ([] : Lookup) k).isSome ↔ k ∈ (∅ : Finset String) := by
    intro k
    simp [lookupFind]
  have hfd_old := createRowLookupAux_firstDup cfg hfail old_data [] ∅ [] ∅ hok_old hinit
  rcases hfo : firstDuplicateKey cfg old_data ∅ with _ | k0
  · rw [hfo] at hfd_old
    obtain ⟨⟨oldRows, oldCols, oldDups⟩, ho⟩ := hfd_old
    have ho' : create_row_lookup cfg old_data = .ok (oldRows, oldCols, oldDups) := ho
    have hnd_old : (keyList cfg old_data).Nodup :=
      (((firstDuplicateKey_none_iff cfg old_data ∅ hok_old).mp hfo).1)
    have hfd_new := createRowLookupAux_firstDup cfg hfail new_data [] ∅ [] ∅ hok_new hinit
    rcases hfn : firstDuplicateKey cfg new_data ∅ with _ | k1
    · rw [hfn] at hfd_new
      obtain ⟨⟨newRows, newCols, newDups⟩, hn⟩ := hfd_new
      have hn' : create_row_lookup cfg new_data = .ok (newRows, newCols, newDups) := hn
      have hnd_new : (keyList cfg new_data).Nodup :=
        (((firstDuplicateKey_none_iff cfg new_data ∅ hok_new).mp hfn).1)
      constructor
      · constructor
        · intro ⟨k, hk⟩
          exact absurd hk (compare_classified_ok_not_error hv ho' hn' _)
        · intro h
          rcases h with h | h
          · exact absurd hnd_old h
          · exact absurd hnd_new h
      · intro k hk
        exact absurd hk (compare_classified_ok_not_error hv ho' hn' _)
    · rw [hfn] at hfd_new
      have hn' : create_row_lookup cfg new_data = .error (.duplicateKey k1) := hfd_new
      have hcmp : compare_classified cfg old_data new_data = .error (.duplicateKey k1) :=
        compare_classified_new_error hv ho' hn'
      constructor
      · constructor
        · intro _
          right
          intro hnd
          have := ((firstDuplicateKey_none_iff cfg new_data ∅ hok_new).mpr
            ⟨hnd, fun k _ => Finset.not_mem_empty k⟩)
          rw [hfn] at this
          exact absurd this (by simp)
        · intro _
          exact ⟨k1, hcmp⟩
      · intro k hk
        rw [hcmp] at hk
        simp only [Except.error.injEq, CompareError.duplicateKey.injEq] at hk
        exact Or.inr ⟨rfl, by rw [hk]⟩
  · rw [hfo] at hfd_old
    have ho' : create_row_lookup cfg old_data = .error (.duplicateKey k0) := hfd_old
    have hcmp : compare_classified cfg old_data new_data = .error (.duplicateKey k0) :=
      compare_classified_old_error hv ho'
    constructor
    · constructor
      · intro _
        left
        intro hnd
        have := ((firstDuplicateKey_none_iff cfg old_data ∅ hok_old).mpr
          ⟨hnd, fun k _ => Finset.not_mem_empty k⟩)
        rw [hfo] at this
        exact absurd this (by simp)
      · intro _
        exact ⟨k0, hcmp⟩
    · intro k hk
      rw [hcmp] at hk
      simp only [Except.error.injEq, CompareError.duplicateKey.injEq] at hk
      exact Or.inl (by rw [hk])

/-- C4 (amended): provided every row of both datasets contains every key
column, compare raises a duplicate-key error iff `fail_on_duplicate_keys` is
true and some dataset contains a second row whose row key equals that of an
earlier row (in particular, no duplicate-key error is ever raised when the
flag is false); the error names the first recurring key of the first dataset
when it has one, otherwise the first recurring key of the second dataset.
An error means no results and no duplicates are produced (the embedding
returns either an error or output, never both). -/
theorem C4_duplicate_error_iff (cfg : Config) (old_data new_data : List Row)
    (hall : ∀ r ∈ old_data ++ new_data, ∀ c ∈ cfg.key_columns, hasCol r c = true) :
    ((∃ k, compare_classified cfg old_data new_data = .error (.duplicateKey k)) ↔
      (cfg.fail_on_duplicate_keys = true ∧
        (¬ (keyList cfg old_data).Nodup ∨ ¬ (keyList cfg new_data).Nodup))) ∧
    (∀ k, compare_classified cfg old_data new_data = .error (.duplicateKey k) →
      firstDuplicateKey cfg old_data ∅ = some k ∨
        (firstDuplicateKey cfg old_data ∅ = none ∧
          firstDuplicateKey cfg new_data ∅ = some k)) := by
  have hflag : ∀ k, compare_classified cfg old_data new_data = .error (.duplicateKey k) →
      cfg.fail_on_duplicate_keys = true := by
    intro k he
    rcases hf : cfg.fail_on_duplicate_keys with _ | _
    · have hcl := compare_error_classify hf he
      have h2 : isMissingKeyError (.duplicateKey k) = false := rfl
      rw [h2] at hcl
      exact absurd hcl (by decide)
    · rfl
  constructor
  · constructor
    · intro ⟨k, he⟩
      have hf := hflag k he
      exact ⟨hf, (compare_duplicate_error_iff_of_fail cfg old_data new_data hf hall).1.mp
        ⟨k, he⟩⟩
    · intro ⟨hf, hd⟩
      exact (compare_duplicate_error_iff_of_fail cfg old_data new_data hf hall).1.mpr hd
  · intro k he
    exact (compare_duplicate_error_iff_of_fail cfg old_data new_data
      (hflag k he) hall).2 k he

/-- C4, witness for the amended claim at a concrete input. -/
theorem C4_witness :
    ∃ k, compare_classified ⟨["ID"], true⟩ [[("ID","1")],[("ID","1")]] [] =
      .error (.duplicateKey k) := by
  have h := C4_duplicate_error_iff ⟨["ID"], true⟩ [[("ID","1")],[("ID","1")]] []
    (by decide)
  exact h.1.mpr ⟨rfl, Or.inl (by decide)⟩

/-- C5, counterexample: the first dataset contains a row lacking the key
column `ID`, yet compare fails with a duplicate-key error, not a
missing-key-column error — with `fail_on_duplicate_keys = true` a duplicate
met before the offending row takes precedence. -/
theorem C5_counterexample :
    compare_classified ⟨["ID"], true⟩ [[("ID","1")],[("ID","1")],[("Name","x")]] [] =
      .error (.duplicateKey "1") ∧
    hasCol [("Name","x")] "ID" = false ∧
    "ID" ∈ (⟨["ID"], true⟩ : Config).key_columns :=
  ⟨by decide, by decide, by decide⟩

/-- C5 (amended): if any row of either dataset lacks some key column, compare
fails and produces no output; when `fail_on_duplicate_keys` is false the
failure is a missing-key-column error naming the offending column or columns
— either the first-row pre-check error listing absent key columns of a first
row, or a per-row error naming a single key column, and every column so named
is a key column absent from a row of the input (with the flag true a
duplicate-key error met earlier in the scan can pre-empt it).  The first-row
pre-check holds as claimed: a non-empty first dataset whose first row misses
key columns fails listing every absent key column of that row, and likewise
for the second dataset once the first passes. -/
theorem C5_missing_key_column_failure (cfg : Config) (old_data new_data : List Row)
    (hbad : ∃ r ∈ old_data ++ new_data, ∃ c ∈ cfg.key_columns, hasCol r c = false) :
    (∃ e, compare_classified cfg old_data new_data = .error e) ∧
    (cfg.fail_on_duplicate_keys = false →
      (∃ name missing, compare_classified cfg old_data new_data =
          .error (.missingKeyColumns name missing) ∧ missing ≠ [] ∧
        ∀ c ∈ missing, c ∈ cfg.key_columns ∧
          ∃ r ∈ old_data ++ new_data, hasCol r c = false) ∨
      (∃ c, compare_classified cfg old_data new_data = .error (.missingKeyColumn c) ∧
        c ∈ cfg.key_columns ∧ ∃ r ∈ old_data ++ new_data, hasCol r c = false)) ∧
    (∀ firstRow rest, old_data = firstRow :: rest →
      cfg.key_columns.filter (fun c => !hasCol firstRow c) ≠ [] →
      compare_classified cfg old_data new_data =
        .error (.missingKeyColumns "first"
          (cfg.key_columns.filter (fun c => !hasCol firstRow c)))) ∧
    (∀ firstRow rest, new_data = firstRow :: rest →
      validateDataset cfg "first" old_data = .ok () →
      cfg.key_columns.filter (fun c => !hasCol firstRow c) ≠ [] →
      compare_classified cfg old_data new_data =
        .error (.missingKeyColumns "second"
          (cfg.key_columns.filter (fun c => !hasCol firstRow c)))) := by
  have hfails : ∃ e, compare_classified cfg old_data new_data = .error e := by
    rcases hv : validate_key_columns cfg old_data new_data with e | u
    · exact ⟨e, compare_classified_validate_error hv⟩
    rcases u
    obtain ⟨r, hr, c, hc, hmiss⟩ := hbad
    rcases List.mem_append.mp hr with hro | hrn
    · obtain ⟨e, he⟩ := createRowLookupAux_error_of_bad cfg old_data
        ⟨r, hro, c, hc, hmiss⟩ [] ∅ [] ∅
      exact ⟨e, compare_classified_old_error hv he⟩
    · rcases ho : create_row_lookup cfg old_data with e | trip
      · exact ⟨e, compare_classified_old_error hv ho⟩
      obtain ⟨oldRows, oldCols, oldDups⟩ := trip
      obtain ⟨e, he⟩ := createRowLookupAux_error_of_bad cfg new_data
        ⟨r, hrn, c, hc, hmiss⟩ [] ∅ [] ∅
      exact ⟨e, compare_classified_new_error hv ho he⟩
  refine ⟨hfails, ?_, ?_, ?_⟩
  · intro hfail
    rcases hv : validate_key_columns cfg old_data new_data with e | u
    · obtain ⟨name, missing, h1, h2, h3⟩ := validate_key_columns_error_eq hv
      left
      refine ⟨name, missing, ?_, h2, h3⟩
      rw [compare_classified_validate_error hv, h1]
    · rcases u
      rcases ho : create_row_lookup cfg old_data with e | trip
      · obtain ⟨col, h1, h2, r, hr, h3⟩ := create_row_lookup_error_missing hfail ho
        right
        refine ⟨col, ?_, h2, r, List.mem_append_left _ hr, h3⟩
        rw [compare_classified_old_error hv ho, h1]
      · obtain ⟨oldRows, oldCols, oldDups⟩ := trip
        rcases hn : create_row_lookup cfg new_data with e | trip2
        · obtain ⟨col, h1, h2, r, hr, h3⟩ := create_row_lookup_error_missing hfail hn
          right
          refine ⟨col, ?_, h2, r, List.mem_append_right _ hr, h3⟩
          rw [compare_classified_new_error hv ho hn, h1]
        · obtain ⟨newRows, newCols, newDups⟩ := trip2
          exfalso
          obtain ⟨e, he⟩ := hfails
          exact compare_classified_ok_not_error hv ho hn e he
  · intro firstRow rest hold hm
    subst hold
    exact compare_classified_validate_error
      (validate_key_columns_first_error rest new_data hm)
  · intro firstRow rest hnew hfirst hm
    subst hnew
    exact compare_classified_validate_error
      (validate_key_columns_second_error old_data rest hfirst hm)

/-- C5, witness for the amended claim at a concrete input. -/
theorem C5_witness :
    ((∃ name missing, compare_classified ⟨["ID"], false⟩ [[("ID","1")],[("Name","x")]] [] =
        .error (.missingKeyColumns name missing) ∧ missing ≠ [] ∧
      ∀ c ∈ missing, c ∈ (⟨["ID"], false⟩ : Config).key_columns ∧
        ∃ r ∈ [[("ID","1")],[("Name","x")]] ++ ([] : List Row), hasCol r c = false) ∨
     (∃ c, compare_classified ⟨["ID"], false⟩ [[("ID","1")],[("Name","x")]] [] =
        .error (.missingKeyColumn c) ∧
      c ∈ (⟨["ID"], false⟩ : Config).key_columns ∧
        ∃ r ∈ [[("ID","1")],[("Name","x")]] ++ ([] : List Row), hasCol r c = false)) ∧
    compare_classified ⟨["ID"], false⟩ [[("Name","x")],[("ID","1")]] [] =
      .error (.missingKeyColumns "first" ["ID"]) := by
  have h1 := C5_missing_key_column_failure ⟨["ID"], false⟩ [[("ID","1")],[("Name","x")]] []
    (by decide)
  have h2 := C5_missing_key_column_failure ⟨["ID"], false⟩ [[("Name","x")],[("ID","1")]] []
    (by decide)
  refine ⟨h1.2.1 rfl, ?_⟩
  have h3 := h2.2.2.1 [("Name","x")] [[("ID","1")]] rfl (by decide)
  exact h3.trans (by decide)

/-- C1: for a key present in both lookups whose digests differ, the loop walks
the sorted non-key column list reading absent columns as empty text
(`getCol`'s default), the changed columns are exactly the sorted non-key
columns whose two text values differ, and a Changed result for that key is
appended (exactly once) iff that list is non-empty. -/
theorem C1_changed_row_columns (cfg : Config) (old_data new_data : List Row)
    (results : List ComparisonResult) (duplicates : List Row)
    (oldRows : Lookup) (oldCols : Finset String) (oldDups : List Row)
    (newRows : Lookup) (newCols : Finset String) (newDups : List Row)
    (ho : create_row_lookup cfg old_data = .ok (oldRows, oldCols, oldDups))
    (hn : create_row_lookup cfg new_data = .ok (newRows, newCols, newDups))
    (hcmp : compare_classified cfg old_data new_data = .ok (results, duplicates))
    (k : String) (eo en : LookupEntry)
    (hko : lookupFind oldRows k = some eo) (hkn : lookupFind newRows k = some en)
    (hdig : eo.row_digest ≠ en.row_digest) :
    ((finsetSortLe ((oldCols ∪ newCols) \ cfg.key_columns.toFinset)).filter
        (fun c => getCol eo.row_data c != getCol en.row_data c) ≠ [] →
      results.filter (fun r => r.row_key == k) =
        [⟨k, .changed,
          (finsetSortLe ((oldCols ∪ newCols) \ cfg.key_columns.toFinset)).filter
            (fun c => getCol eo.row_data c != getCol en.row_data c),
          (finsetSortLe ((oldCols ∪ newCols) \ cfg.key_columns.toFinset)).map
            (fun c => (c, getCol eo.row_data c)),
          (finsetSortLe ((oldCols ∪ newCols) \ cfg.key_columns.toFinset)).map
            (fun c => (c, getCol en.row_data c))⟩]) ∧
    ((finsetSortLe ((oldCols ∪ newCols) \ cfg.key_columns.toFinset)).filter
        (fun c => getCol eo.row_data c != getCol en.row_data c) = [] →
      results.filter (fun r => r.row_key == k) = []) := by
  obtain ⟨hres, _⟩ := compare_results_eq ho hn hcmp
  have hkmem : k ∈ finsetSortLe (lookupKeys oldRows ∪ lookupKeys newRows) := by
    rw [mem_finsetSortLe, Finset.mem_union]
    exact Or.inl (lookupFind_some_mem_keys hko)
  have hnd := finsetSortLe_nodup (lookupKeys oldRows ∪ lookupKeys newRows)
  constructor
  · intro hne
    rw [hres, filterMap_processRowKey_filter hnd hkmem]
    unfold processRowKey
    rw [hko, hkn]
    simp only []
    rw [if_neg hdig]
    rw [if_neg (fun h => hne (List.isEmpty_iff.mp h))]
    rfl
  · intro heq
    rw [hres, filterMap_processRowKey_filter hnd hkmem]
    unfold processRowKey
    rw [hko, hkn]
    simp only []
    rw [if_neg hdig]
    rw [if_pos (List.isEmpty_iff.mpr heq)]
    rfl

/-- C1, witness at a concrete input. -/
theorem C1_witness :
    ([⟨"1", .changed, ["Age"], [("Age","25")], [("Age","26")]⟩] :
        List ComparisonResult).filter (fun r => r.row_key == "1") =
      [⟨"1", .changed, ["Age"], [("Age","25")], [("Age","26")]⟩] := by
  have h := C1_changed_row_columns ⟨["ID"], true⟩
    [[("ID","1"),("Age","25")]] [[("ID","1"),("Age","26")]]
    [⟨"1", .changed, ["Age"], [("Age","25")], [("Age","26")]⟩] []
    [("1", ⟨[("Age","25"),("ID","1")], [("ID","1"),("Age","25")]⟩)] {"ID","Age"} []
    [("1", ⟨[("Age","26"),("ID","1")], [("ID","1"),("Age","26")]⟩)] {"ID","Age"} []
    (by decide) (by decide) (by decide)
    "1" ⟨[("Age","25"),("ID","1")], [("ID","1"),("Age","25")]⟩
    ⟨[("Age","26"),("ID","1")], [("ID","1"),("Age","26")]⟩
    (by decide) (by decide) (by decide)
  exact (h.1 (by decide)).trans (by decide)

/-- C6: a key present only in the new lookup yields exactly one result, with
status Added, OldValues mapping every sorted non-key column to empty text and
NewValues mapping every sorted non-key column to the new row's value (empty
text when the column is absent from that row); a key present only in the old
lookup is treated symmetrically with status Removed. -/
theorem C6_added_removed_values (cfg : Config) (old_data new_data : List Row)
    (results : List ComparisonResult) (duplicates : List Row)
    (oldRows : Lookup) (oldCols : Finset String) (oldDups : List Row)
    (newRows : Lookup) (newCols : Finset String) (newDups : List Row)
    (ho : create_row_lookup cfg old_data = .ok (oldRows, oldCols, oldDups))
    (hn : create_row_lookup cfg new_data = .ok (newRows, newCols, newDups))
    (hcmp : compare_classified cfg old_data new_data = .ok (results, duplicates))
    (k : String) :
    (∀ en, lookupFind oldRows k = none → lookupFind newRows k = some en →
      results.filter (fun r => r.row_key == k) =
        [⟨k, .added, [],
          (finsetSortLe ((oldCols ∪ newCols) \ cfg.key_columns.toFinset)).map
            (fun c => (c, "")),
          (finsetSortLe ((oldCols ∪ newCols) \ cfg.key_columns.toFinset)).map
            (fun c => (c, getCol en.row_data c))⟩]) ∧
    (∀ eo, lookupFind oldRows k = some eo → lookupFind newRows k = none →
      results.filter (fun r => r.row_key == k) =
        [⟨k, .removed, [],
          (finsetSortLe ((oldCols ∪ newCols) \ cfg.key_columns.toFinset)).map
            (fun c => (c, getCol eo.row_data c)),
          (finsetSortLe ((oldCols ∪ newCols) \ cfg.key_columns.toFinset)).map
            (fun c => (c, ""))⟩]) := by
  obtain ⟨hres, _⟩ := compare_results_eq ho hn hcmp
  have hnd := finsetSortLe_nodup (lookupKeys oldRows ∪ lookupKeys newRows)
  constructor
  · intro en hko hkn
    have hkmem : k ∈ finsetSortLe (lookupKeys oldRows ∪ lookupKeys newRows) := by
      rw [mem_finsetSortLe, Finset.mem_union]
      exact Or.inr (lookupFind_some_mem_keys hkn)
    rw [hres, filterMap_processRowKey_filter hnd hkmem]
    unfold processRowKey
    rw [hko, hkn]
    rfl
  · intro eo hko hkn
    have hkmem : k ∈ finsetSortLe (lookupKeys oldRows ∪ lookupKeys newRows) := by
      rw [mem_finsetSortLe, Finset.mem_union]
      exact Or.inl (lookupFind_some_mem_keys hko)
    rw [hres, filterMap_processRowKey_filter hnd hkmem]
    unfold processRowKey
    rw [hko, hkn]
    rfl

/-- C6, witness at a concrete input. -/
theorem C6_witness :
    ([⟨"2", .added, [], [("Name","")], [("Name","Bob")]⟩] :
        List ComparisonResult).filter (fun r => r.row_key == "2") =
      [⟨"2", .added, [], [("Name","")], [("Name","Bob")]⟩] := by
  have h := C6_added_removed_values ⟨["ID"], true⟩
    [[("ID","1"),("Name","Alice")]]
    [[("ID","1"),("Name","Alice")], [("ID","2"),("Name","Bob")]]
    [⟨"2", .added, [], [("Name","")], [("Name","Bob")]⟩] []
    [("1", ⟨[("ID","1"),("Name","Alice")], [("ID","1"),("Name","Alice")]⟩)] {"ID","Name"} []
    [("1", ⟨[("ID","1"),("Name","Alice")], [("ID","1"),("Name","Alice")]⟩),
     ("2", ⟨[("ID","2"),("Name","Bob")], [("ID","2"),("Name","Bob")]⟩)] {"ID","Name"} []
    (by decide) (by decide) (by decide) "2"
  have h2 := h.1 ⟨[("ID","2"),("Name","Bob")], [("ID","2"),("Name","Bob")]⟩
    (by decide) (by decide)
  exact h2.trans (by decide)

/-- C10: with `fail_on_duplicate_keys` false, a key duplicated in one dataset
but unique in the other is classified as if absent from the duplicated side:
exactly one result is emitted for it, Added when the old side holds the
duplicates and Removed when the new side does, and every duplicated-side row
with that key appears in the duplicates output rather than contributing a
result. -/
theorem C10_duplicate_side_classification (cfg : Config) (old_data new_data : List Row)
    (results : List ComparisonResult) (duplicates : List Row)
    (oldRows : Lookup) (oldCols : Finset String) (oldDups : List Row)
    (newRows : Lookup) (newCols : Finset String) (newDups : List Row)
    (hfail : cfg.fail_on_duplicate_keys = false)
    (ho : create_row_lookup cfg old_data = .ok (oldRows, oldCols, oldDups))
    (hn : create_row_lookup cfg new_data = .ok (newRows, newCols, newDups))
    (hcmp : compare_classified cfg old_data new_data = .ok (results, duplicates))
    (k : String) :
    (2 ≤ countKey cfg old_data k → countKey cfg new_data k = 1 →
      (∃ res, results.filter (fun r => r.row_key == k) = [res] ∧ res.status = .added) ∧
      ∀ r ∈ old_data, rowKeyOf cfg r = some k → r ∈ duplicates) ∧
    (countKey cfg old_data k = 1 → 2 ≤ countKey cfg new_data k →
      (∃ res, results.filter (fun r => r.row_key == k) = [res] ∧ res.status = .removed) ∧
      ∀ r ∈ new_data, rowKeyOf cfg r = some k → r ∈ duplicates) := by
  obtain ⟨hres, hdup⟩ := compare_results_eq ho hn hcmp
  have hnd := finsetSortLe_nodup (lookupKeys oldRows ∪ lookupKeys newRows)
  constructor
  · intro hold2 hnew1
    have hko : lookupFind oldRows k = none := by
      rw [create_row_lookup_find ho k, if_neg (by omega)]
    have hfindsome : (new_data.find? (fun r => rowKeyOf cfg r == some k)).isSome := by
      rw [List.find?_isSome]
      have h1 : 1 ≤ countKey cfg new_data k := by omega
      rw [countKey_pos_iff_occurs] at h1
      unfold occursKey at h1
      rw [List.any_eq_true] at h1
      exact h1
    rcases hfind : new_data.find? (fun r => rowKeyOf cfg r == some k) with _ | row
    · rw [hfind] at hfindsome
      exact absurd hfindsome (by simp)
    have hkn : lookupFind newRows k = some ⟨generate_row_digest row, row⟩ := by
      rw [create_row_lookup_find hn k, if_pos hnew1, hfind]
      rfl
    constructor
    · have hkmem : k ∈ finsetSortLe (lookupKeys oldRows ∪ lookupKeys newRows) := by
        rw [mem_finsetSortLe, Finset.mem_union]
        exact Or.inr (lookupFind_some_mem_keys hkn)
      refine ⟨⟨k, .added, [],
        (finsetSortLe ((oldCols ∪ newCols) \ cfg.key_columns.toFinset)).map (fun c => (c, "")),
        (finsetSortLe ((oldCols ∪ newCols) \ cfg.key_columns.toFinset)).map
          (fun c => (c, getCol row c))⟩, ?_, rfl⟩
      rw [hres, filterMap_processRowKey_filter hnd hkmem]
      unfold processRowKey
      rw [hko, hkn]
      rfl
    · intro r hr hrk
      have hmem : r ∈ old_data.filter (isDuplicatedRow cfg old_data) := by
        rw [List.mem_filter]
        refine ⟨hr, ?_⟩
        unfold isDuplicatedRow
        rw [hrk]
        simpa using hold2
      have : r ∈ oldDups := ((create_row_lookup_dups ho).mem_iff).mpr hmem
      rw [hdup]
      exact List.mem_append_left _ this
  · intro hold1 hnew2
    have hkn : lookupFind newRows k = none := by
      rw [create_row_lookup_find hn k, if_neg (by omega)]
    have hfindsome : (old_data.find? (fun r => rowKeyOf cfg r == some k)).isSome := by
      rw [List.find?_isSome]
      have h1 : 1 ≤ countKey cfg old_data k := by omega
      rw [countKey_pos_iff_occurs] at h1
      unfold occursKey at h1
      rw [List.any_eq_true] at h1
      exact h1
    rcases hfind : old_data.find? (fun r => rowKeyOf cfg r == some k) with _ | row
    · rw [hfind] at hfindsome
      exact absurd hfindsome (by simp)
    have hko : lookupFind oldRows k = some ⟨generate_row_digest row, row⟩ := by
      rw [create_row_lookup_find ho k, if_pos hold1, hfind]
      rfl
    constructor
    · have hkmem : k ∈ finsetSortLe (lookupKeys oldRows ∪ lookupKeys newRows) := by
        rw [mem_finsetSortLe, Finset.mem_union]
        exact Or.inl (lookupFind_some_mem_keys hko)
      refine ⟨⟨k, .removed, [],
        (finsetSortLe ((oldCols ∪ newCols) \ cfg.key_columns.toFinset)).map
          (fun c => (c, getCol row c)),
        (finsetSortLe ((oldCols ∪ newCols) \ cfg.key_columns.toFinset)).map
          (fun c => (c, ""))⟩, ?_, rfl⟩
      rw [hres, filterMap_processRowKey_filter hnd hkmem]
      unfold processRowKey
      rw [hko, hkn]
      rfl
    · intro r hr hrk
      have hmem : r ∈ new_data.filter (isDuplicatedRow cfg new_data) := by
        rw [List.mem_filter]
        refine ⟨hr, ?_⟩
        unfold isDuplicatedRow
        rw [hrk]
        simpa using hnew2
      have : r ∈ newDups := ((create_row_lookup_dups hn).mem_iff).mpr hmem
      rw [hdup]
      exact List.mem_append_right _ this

/-- C10, witness at a concrete input. -/
theorem C10_witness :
    (∃ res, ([⟨"1", .added, [], [("N","")], [("N","z")]⟩] :
        List ComparisonResult).filter (fun r => r.row_key == "1") = [res] ∧
      res.status = .added) ∧
    ([("ID","1"),("N","a")] : Row) ∈
      ([[("ID","1"),("N","a")],[("ID","1"),("N","b")]] : List Row) := by
  have h := C10_duplicate_side_classification ⟨["ID"], false⟩
    [[("ID","1"),("N","a")],[("ID","1"),("N","b")]] [[("ID","1"),("N","z")]]
    [⟨"1", .added, [], [("N","")], [("N","z")]⟩]
    [[("ID","1"),("N","a")],[("ID","1"),("N","b")]]
    [] {"ID","N"} [[("ID","1"),("N","a")],[("ID","1"),("N","b")]]
    [("1", ⟨[("ID","1"),("N","z")], [("ID","1"),("N","z")]⟩)] {"ID","N"} []
    (by decide) (by decide) (by decide) (by decide) "1"
  have h1 := h.1 (by decide) (by decide)
  have h2 := h1.2 [("ID","1"),("N","a")] (by decide) (by decide)
  exact ⟨h1.1, by decide⟩

/-! ### Swapping the two datasets -/

/-- Added and Removed trade places when the datasets are swapped. -/
def swapStatus : RowStatus → RowStatus
  | .added => .removed
  | .removed => .added
  | .changed => .changed

/-- The result a swapped run produces for a key, given the original run's. -/
def swapResult (r : ComparisonResult) : ComparisonResult :=
  ⟨r.row_key, swapStatus r.status, r.changed_columns, r.new_values, r.old_values⟩

theorem bne_symm_str (x y : String) : (x != y) = (y != x) := by
  by_cases h : x = y
  · subst h
    rfl
  · have h1 : (x != y) = true := by simpa using h
    have h2 : (y != x) = true := by simpa using Ne.symm h
    rw [h1, h2]

theorem processRowKey_swap (nonKeyColumns : List String) (oldRows newRows : Lookup)
    (k : String) :
    processRowKey nonKeyColumns newRows oldRows k =
      (processRowKey nonKeyColumns oldRows newRows k).map swapResult := by
  unfold processRowKey
  rcases hfo : lookupFind oldRows k with _ | eo <;>
    rcases hfn : lookupFind newRows k with _ | en
  · rfl
  · rfl
  · rfl
  · simp only []
    have hfc : nonKeyColumns.filter (fun c => getCol en.row_data c != getCol eo.row_data c) =
        nonKeyColumns.filter (fun c => getCol eo.row_data c != getCol en.row_data c) :=
      List.filter_congr (fun c _ => bne_symm_str _ _)
    by_cases hd : eo.row_digest = en.row_digest
    · rw [if_pos hd.symm, if_pos hd]
      rfl
    · rw [if_neg (fun h => hd h.symm), if_neg hd]
      rw [hfc]
      by_cases hc : (nonKeyColumns.filter
          (fun c => getCol eo.row_data c != getCol en.row_data c)).isEmpty
      · rw [if_pos hc, if_pos hc]
        rfl
      · rw [if_neg hc, if_neg hc]
        rfl

theorem forall2_map_self {α : Type} (f : α → α) (R : α → α → Prop)
    (h : ∀ a : α, R a (f a)) : ∀ l : List α, List.Forall₂ R l (l.map f)
  | [] => List.Forall₂.nil
  | a :: l => List.Forall₂.cons (h a) (forall2_map_self f R h l)

/-- C8: on datasets with unique keys (and in fact on any two datasets both of
whose comparisons succeed), swapping the datasets yields the same number of
results with the same row-key sequence; each result's status is Added↔Removed
swapped (Changed unchanged) with the same changed-column list. -/
theorem C8_swap_symmetry (cfg : Config) (old_data new_data : List Row)
    (results results' : List ComparisonResult) (duplicates duplicates' : List Row)
    (hndo : (keyList cfg old_data).Nodup) (hndn : (keyList cfg new_data).Nodup)
    (h1 : compare_classified cfg old_data new_data = .ok (results, duplicates))
    (h2 : compare_classified cfg new_data old_data = .ok (results', duplicates')) :
    results'.length = results.length ∧
    results'.map (fun r => r.row_key) = results.map (fun r => r.row_key) ∧
    List.Forall₂ (fun r r' => r'.status = swapStatus r.status ∧
      r'.changed_columns = r.changed_columns) results results' := by
  obtain ⟨_, oldRows, oldCols, oldDups, newRows, newCols, newDups, ho, hn, _⟩ :=
    compare_classified_ok_inv h1
  obtain ⟨hres, _⟩ := compare_results_eq ho hn h1
  obtain ⟨hres', _⟩ := compare_results_eq hn ho h2
  have hkeys : lookupKeys newRows ∪ lookupKeys oldRows =
      lookupKeys oldRows ∪ lookupKeys newRows := Finset.union_comm _ _
  have hcols : (newCols ∪ oldCols) = (oldCols ∪ newCols) := Finset.union_comm _ _
  rw [hkeys, hcols] at hres'
  have hswap : results' = results.map swapResult := by
    rw [hres', hres]
    rw [List.filterMap_congr (fun k _ => processRowKey_swap
      (finsetSortLe ((oldCols ∪ newCols) \ cfg.key_columns.toFinset)) oldRows newRows k)]
    rw [← List.map_filterMap]
  subst hswap
  refine ⟨List.length_map _ _, ?_, ?_⟩
  · rw [List.map_map]
    rfl
  · exact forall2_map_self swapResult _ (fun r => ⟨rfl, rfl⟩) results

/-- C8, witness at a concrete input. -/
theorem C8_witness :
    ([⟨"1", .added, [], [("A","")], [("A","x")]⟩,
      ⟨"2", .removed, [], [("A","y")], [("A","")]⟩] :
        List ComparisonResult).length =
      ([⟨"1", .removed, [], [("A","x")], [("A","")]⟩,
        ⟨"2", .added, [], [("A","")], [("A","y")]⟩] :
          List ComparisonResult).length ∧
    ([⟨"1", .added, [], [("A","")], [("A","x")]⟩,
      ⟨"2", .removed, [], [("A","y")], [("A","")]⟩] :
        List ComparisonResult).map (fun r => r.row_key) =
      ([⟨"1", .removed, [], [("A","x")], [("A","")]⟩,
        ⟨"2", .added, [], [("A","")], [("A","y")]⟩] :
          List ComparisonResult).map (fun r => r.row_key) ∧
    List.Forall₂ (fun r r' => r'.status = swapStatus r.status ∧
      r'.changed_columns = r.changed_columns)
      ([⟨"1", .removed, [], [("A","x")], [("A","")]⟩,
        ⟨"2", .added, [], [("A","")], [("A","y")]⟩] : List ComparisonResult)
      ([⟨"1", .added, [], [("A","")], [("A","x")]⟩,
        ⟨"2", .removed, [], [("A","y")], [("A","")]⟩] : List ComparisonResult) := by
  have h := C8_swap_symmetry ⟨["ID"], true⟩
    [[("ID","1"),("A","x")]] [[("ID","2"),("A","y")]]
    [⟨"1", .removed, [], [("A","x")], [("A","")]⟩,
     ⟨"2", .added, [], [("A","")], [("A","y")]⟩]
    [⟨"1", .added, [], [("A","")], [("A","x")]⟩,
     ⟨"2", .removed, [], [("A","y")], [("A","")]⟩]
    [] []
    (by decide) (by decide) (by decide) (by decide)
  exact h

theorem compare_def (cfg : Config) (o n : List Row) :
    compare cfg o n = match compare_classified cfg o n with
      | .error e => .error e
      | .ok (results, duplicates) => .ok (results.map format_compared_row, duplicates) :=
  rfl

theorem unionCols_perm : ∀ {l l' : List Row}, l'.Perm l → unionCols l' = unionCols l := by
  intro l l' h
  induction h with
  | nil => rfl
  | cons x _ ih => rw [unionCols_cons, unionCols_cons, ih]
  | swap x y l =>
    rw [unionCols_cons, unionCols_cons, unionCols_cons, unionCols_cons,
      ← Finset.union_assoc, ← Finset.union_assoc, Finset.union_comm (rowCols y) (rowCols x)]
  | trans _ _ ih1 ih2 => rw [ih1, ih2]

theorem find?_perm_of_countP_le_one {α : Type} {p : α → Bool} {l l' : List α}
    (hperm : l'.Perm l) (hcount : l.countP p ≤ 1) : l'.find? p = l.find? p := by
  rcases hl : l.find? p with _ | a
  · rw [List.find?_eq_none] at hl ⊢
    intro x hx
    exact hl x (hperm.subset hx)
  · have hpa : p a = true := List.find?_some hl
    have hmem : a ∈ l := List.mem_of_find?_eq_some hl
    have hsome : (l'.find? p).isSome = true := by
      rw [List.find?_isSome]
      exact ⟨a, hperm.mem_iff.mpr hmem, hpa⟩
    rcases hl' : l'.find? p with _ | b
    · rw [hl'] at hsome
      exact absurd hsome (by simp)
    · have hpb : p b = true := List.find?_some hl'
      have hmemb : b ∈ l := hperm.subset (List.mem_of_find?_eq_some hl')
      have hfa : a ∈ l.filter p := List.mem_filter.mpr ⟨hmem, hpa⟩
      have hfb : b ∈ l.filter p := List.mem_filter.mpr ⟨hmemb, hpb⟩
      have hlen : (l.filter p).length ≤ 1 := by
        rw [← List.countP_eq_length_filter]
        exact hcount
      rcases hfilter : l.filter p with _ | ⟨x, xs⟩
      · rw [hfilter] at hfa
        exact absurd hfa (by simp)
      · rw [hfilter] at hfa hfb hlen
        have hxs : xs = [] := by
          apply List.eq_nil_of_length_eq_zero
          simp only [List.length_cons] at hlen
          omega
        subst hxs
        have ha : a = x := by simpa using hfa
        have hb : b = x := by simpa using hfb
        rw [ha, hb]

theorem countKey_perm {cfg : Config} {l l' : List Row} (h : l'.Perm l) (k : String) :
    countKey cfg l' k = countKey cfg l k :=
  h.countP_eq _

theorem create_row_lookup_find_perm {cfg : Config} {data data' : List Row}
    {l l' : Lookup} {c c' : Finset String} {d d' : List Row}
    (h : create_row_lookup cfg data = .ok (l, c, d))
    (h' : create_row_lookup cfg data' = .ok (l', c', d'))
    (hperm : data'.Perm data) (k : String) :
    lookupFind l' k = lookupFind l k := by
  rw [create_row_lookup_find h' k, create_row_lookup_find h k, countKey_perm hperm]
  by_cases hc : countKey cfg data k = 1
  · rw [if_pos hc, if_pos hc]
    congr 1
    exact find?_perm_of_countP_le_one hperm (le_of_eq hc)
  · rw [if_neg hc, if_neg hc]

theorem processRowKey_congr {oldRows newRows oldRows' newRows' : Lookup}
    (nonKeyColumns : List String) (k : String)
    (ho : lookupFind oldRows' k = lookupFind oldRows k)
    (hn : lookupFind newRows' k = lookupFind newRows k) :
    processRowKey nonKeyColumns oldRows' newRows' k =
      processRowKey nonKeyColumns oldRows newRows k := by
  unfold processRowKey
  rw [ho, hn]

theorem lookupKeys_eq_of_find {l l' : Lookup}
    (h : ∀ k, lookupFind l' k = lookupFind l k) : lookupKeys l' = lookupKeys l := by
  ext k
  rw [← lookupFind_isSome_iff, ← lookupFind_isSome_iff, h k]

theorem compare_classified_perm {cfg : Config}
    {old_data new_data old_data' new_data' : List Row}
    (hall : ∀ r ∈ old_data ++ new_data, ∀ c ∈ cfg.key_columns, hasCol r c = true)
    (hndo : (keyList cfg old_data).Nodup) (hndn : (keyList cfg new_data).Nodup)
    (hpo : old_data'.Perm old_data) (hpn : new_data'.Perm new_data) :
    compare_classified cfg old_data' new_data' =
      compare_classified cfg old_data new_data := by
  have hallo : ∀ r ∈ old_data, ∀ c ∈ cfg.key_columns, hasCol r c = true :=
    fun r hr => hall r (List.mem_append_left _ hr)
  have halln : ∀ r ∈ new_data, ∀ c ∈ cfg.key_columns, hasCol r c = true :=
    fun r hr => hall r (List.mem_append_right _ hr)
  have hall' : ∀ r ∈ old_data' ++ new_data', ∀ c ∈ cfg.key_columns, hasCol r c = true := by
    intro r hr
    rcases List.mem_append.mp hr with h | h
    · exact hallo r (hpo.subset h)
    · exact halln r (hpn.subset h)
  have hok_o : ∀ r ∈ old_data, ∃ k, rowKeyOf cfg r = some k := by
    intro r hr
    obtain ⟨k, hk⟩ := (generate_row_key_ok_iff cfg r).mpr (fun c hc => hallo r hr c hc)
    exact ⟨k, rowKeyOf_eq_some_iff.mpr hk⟩
  have hok_n : ∀ r ∈ new_data, ∃ k, rowKeyOf cfg r = some k := by
    intro r hr
    obtain ⟨k, hk⟩ := (generate_row_key_ok_iff cfg r).mpr (fun c hc => halln r hr c hc)
    exact ⟨k, rowKeyOf_eq_some_iff.mpr hk⟩
  have hok_o' : ∀ r ∈ old_data', ∃ k, rowKeyOf cfg r = some k :=
    fun r hr => hok_o r (hpo.subset hr)
  have hok_n' : ∀ r ∈ new_data', ∃ k, rowKeyOf cfg r = some k :=
    fun r hr => hok_n r (hpn.subset hr)
  have hndo' : (keyList cfg old_data').Nodup :=
    ((hpo.filterMap (rowKeyOf cfg)).nodup_iff).mpr hndo
  have hndn' : (keyList cfg new_data').Nodup :=
    ((hpn.filterMap (rowKeyOf cfg)).nodup_iff).mpr hndn
  have ho := create_row_lookup_of_nodup hok_o hndo
  have hn := create_row_lookup_of_nodup hok_n hndn
  have ho' := create_row_lookup_of_nodup hok_o' hndo'
  have hn' := create_row_lookup_of_nodup hok_n' hndn'
  have hvalid : validate_key_columns cfg old_data new_data = .ok () :=
    validate_key_columns_ok hall
  have hvalid' : validate_key_columns cfg old_data' new_data' = .ok () :=
    validate_key_columns_ok hall'
  have hfind_o := fun k => create_row_lookup_find_perm ho ho' hpo k
  have hfind_n := fun k => create_row_lookup_find_perm hn hn' hpn k
  have hkeys_o := lookupKeys_eq_of_find hfind_o
  have hkeys_n := lookupKeys_eq_of_find hfind_n
  have hcols_o : unionCols old_data' = unionCols old_data := unionCols_perm hpo
  have hcols_n : unionCols new_data' = unionCols new_data := unionCols_perm hpn
  have hempty_o : (old_data'.map (fun r =>
        ((rowKeyOf cfg r).getD "", (⟨generate_row_digest r, r⟩ : LookupEntry)))).isEmpty =
      (old_data.map (fun r =>
        ((rowKeyOf cfg r).getD "", (⟨generate_row_digest r, r⟩ : LookupEntry)))).isEmpty :=
    (hpo.map _).isEmpty_eq
  have hempty_n : (new_data'.map (fun r =>
        ((rowKeyOf cfg r).getD "", (⟨generate_row_digest r, r⟩ : LookupEntry)))).isEmpty =
      (new_data.map (fun r =>
        ((rowKeyOf cfg r).getD "", (⟨generate_row_digest r, r⟩ : LookupEntry)))).isEmpty :=
    (hpn.map _).isEmpty_eq
  unfold compare_classified
  rw [hvalid, hvalid']
  simp only []
  rw [ho, ho', hn, hn']
  simp only []
  rw [hempty_o, hempty_n, hkeys_o, hkeys_n, hcols_o, hcols_n,
    List.filterMap_congr (fun k _ => processRowKey_congr _ k (hfind_o k) (hfind_n k))]

/-- C7: on datasets whose every row has every key column and whose row keys are
unique within each dataset, the comparison's result row keys are strictly
increasing in code-point lexicographic order of the joined key string, and
rerunning on row-permuted versions of the same datasets yields the identical
classified output and the identical formatted output. -/
theorem C7_sorted_deterministic (cfg : Config)
    (old_data new_data old_data' new_data' : List Row)
    (results : List ComparisonResult) (duplicates : List Row)
    (hall : ∀ r ∈ old_data ++ new_data, ∀ c ∈ cfg.key_columns, hasCol r c = true)
    (hndo : (keyList cfg old_data).Nodup) (hndn : (keyList cfg new_data).Nodup)
    (hpo : old_data'.Perm old_data) (hpn : new_data'.Perm new_data)
    (hcmp : compare_classified cfg old_data new_data = .ok (results, duplicates)) :
    (results.map (fun r => r.row_key)).Pairwise (fun a b => strLt a b = true) ∧
    compare_classified cfg old_data' new_data' = .ok (results, duplicates) ∧
    compare cfg old_data' new_data' = compare cfg old_data new_data := by
  refine ⟨?_, ?_, ?_⟩
  · obtain ⟨_, oldRows, oldCols, oldDups, newRows, newCols, newDups, ho, hn, _⟩ :=
      compare_classified_ok_inv hcmp
    obtain ⟨hres, _⟩ := compare_results_eq ho hn hcmp
    rw [hres, List.pairwise_map]
    refine List.Pairwise.filterMap _ ?_ (finsetSortLe_pairwise_strLt _)
    intro a a' haa b hb b' hb'
    show strLt b.row_key b'.row_key = true
    rw [processRowKey_row_key (Option.mem_def.mp hb),
      processRowKey_row_key (Option.mem_def.mp hb')]
    exact haa
  · rw [compare_classified_perm hall hndo hndn hpo hpn]
    exact hcmp
  · rw [compare_def, compare_def, compare_classified_perm hall hndo hndn hpo hpn]

/-- C7, witness at a concrete input. -/
theorem C7_witness :
    (∀ r ∈ ([[("ID","2")], [("ID","1")]] ++ [[("ID","1"),("A","x")]] : List Row),
      ∀ c ∈ ["ID"], hasCol r c = true) ∧
    ((([⟨"1", .changed, ["A"], [("A","")], [("A","x")]⟩,
        ⟨"2", .removed, [], [("A","")], [("A","")]⟩] : List ComparisonResult).map
          (fun r => r.row_key)).Pairwise (fun a b => strLt a b = true) ∧
      compare_classified ⟨["ID"], true⟩ [[("ID","1")], [("ID","2")]]
          [[("ID","1"),("A","x")]] =
        .ok ([⟨"1", .changed, ["A"], [("A","")], [("A","x")]⟩,
          ⟨"2", .removed, [], [("A","")], [("A","")]⟩], []) ∧
      compare ⟨["ID"], true⟩ [[("ID","1")], [("ID","2")]] [[("ID","1"),("A","x")]] =
        compare ⟨["ID"], true⟩ [[("ID","2")], [("ID","1")]] [[("ID","1"),("A","x")]]) :=
  ⟨by decide,
   C7_sorted_deterministic ⟨["ID"], true⟩ [[("ID","2")], [("ID","1")]]
     [[("ID","1"),("A","x")]] [[("ID","1")], [("ID","2")]] [[("ID","1"),("A","x")]]
     [⟨"1", .changed, ["A"], [("A","")], [("A","x")]⟩,
      ⟨"2", .removed, [], [("A","")], [("A","")]⟩] []
     (by decide) (by decide) (by decide)
     (List.Perm.swap [("ID","2")] [("ID","1")] []) (List.Perm.refl _)
     (by decide)⟩
